import Mathlib

/-!
# code-visual: the execution trace engine and its playback

A shallow embedding of the `CodeExecutor` class (`src/js/code-executor.js`), of
the playback methods of `AlgorithmVisualizer` (`src/js/main.js`) and of the
bubble sort and binary search example programs (`src/assets/examples.js`).
Script values are a small datatype, the executor's fields are an explicit
state record that every method takes and returns, and a raised exception is an
`Except.error`.  The collaborators that live outside the repository (the Acorn
parser and walker, `JSON.parse`, the numeric conversions, the editor widget,
the clock and the evaluation of the compiled function) are fields of a `Host`
record.
-/

namespace CodeVisual

/-! ## Script values -/

/-- A script number: `NaN`, an infinity, or a finite value.  Every finite double
is a rational and the order of finite doubles is the order of rationals. -/
inductive Num where
  | nan : Num
  | posInf : Num
  | negInf : Num
  | fin (q : ℚ) : Num
  deriving Repr, DecidableEq

/-- The script comparison `x >= 0`. -/
def Num.geZero : Num → Bool
  | .nan => false
  | .posInf => true
  | .negInf => false
  | .fin q => decide (0 ≤ q)

/-- The script comparison `x < n` against a length `n`. -/
def Num.ltLen : Num → Nat → Bool
  | .nan, _ => false
  | .posInf, _ => false
  | .negInf, _ => true
  | .fin q, n => decide (q < (n : ℚ))

/-- A script value.  An object is the sequence of its own enumerable
properties in the order `Object.entries` lists them. -/
inductive Value where
  | undefined : Value
  | null : Value
  | bool (b : Bool) : Value
  | num (n : Num) : Value
  | str (s : String) : Value
  | arr (items : List Value) : Value
  | obj (fields : List (String × Value)) : Value
  | func (name : String) : Value
  deriving Repr

/-- The properties of an object, as `Object.entries` lists them. -/
abbrev Vars := List (String × Value)

/-- Property read `o.name`; an absent property reads as `undefined`. -/
def Vars.get (o : Vars) (name : String) : Value :=
  match o.lookup name with
  | some v => v
  | none => .undefined

/-- The value of `Array.isArray(v)`, with the elements when it holds. -/
def Value.asArray? : Value → Option (List Value)
  | .arr items => some items
  | _ => none

/-- The value of `typeof v === 'number'`, with the number when it holds. -/
def Value.asNumber? : Value → Option Num
  | .num n => some n
  | _ => none

/-! ## Steps and visualizations -/

/-- The object literal handed to `addExecutionStep`.  A field that the literal
does not set is `none`; the field `vars` is the property `variables`. -/
structure Step where
  type : String
  explanation : Option String := none
  lineNumber : Option Int := none
  vars : Option Vars := none
  message : Option String := none
  result : Option Value := none
  error : Option String := none
  deriving Repr

/-- An entry of `pointers` in an array visualization. -/
structure Pointer where
  label : String
  index : Num
  color : String
  deriving Repr

/-- An entry of `callStack` in a recursion visualization. -/
structure Frame where
  function : String
  parameters : Vars
  isCurrent : Bool
  deriving Repr

/-- A node of a graph visualization. -/
structure GraphNode where
  id : String
  label : String
  x : Nat
  y : Nat
  deriving Repr, DecidableEq

/-- An edge of a graph visualization (`fromId`, `toId` are the properties
`from` and `to`). -/
structure GraphEdge where
  fromId : String
  toId : String
  directed : Bool
  deriving Repr, DecidableEq

/-- The visualization object of a step, by its `type` tag (`variablesView` is
the tag `'variables'`). -/
inductive Visualization where
  | variablesView (snapshot : Vars) : Visualization
  | array (array : List Value) (pointers : List Pointer) (highlights : List Num) : Visualization
  | recursion (callStack : List Frame) : Visualization
  | graph (nodes : List GraphNode) (edges : List GraphEdge) (highlights : List String) : Visualization
  deriving Repr

/-- The `{time, space}` pair of `analyzeComplexity`. -/
structure Complexity where
  time : String
  space : String
  deriving Repr, DecidableEq

/-- One iteration of the `for (const [name, value] of Object.entries(...))`
loop of `createArrayVisualization`: push a pointer when the value is a number
with `value >= 0 && value < array.length`. -/
def pointerLoopBody (len : Nat) (pointers : List Pointer) (entry : String × Value) : List Pointer :=
  match entry.2.asNumber? with
  | some n =>
    if n.geZero && n.ltLen len then
      pointers ++ [{ label := entry.1, index := n, color := "#ff4757" }]
    else pointers
  | none => pointers

/-- The highlight test on one binding: `typeof v === 'number' && v < array.length`. -/
def highlightOf (len : Nat) (v : Value) : List Num :=
  match v.asNumber? with
  | some n => if n.ltLen len then [n] else []
  | none => []

/-- The method `createArrayVisualization(array, step)`. -/
def createArrayVisualization (array : List Value) (step : Step) : Visualization :=
  let pointers : List Pointer :=
    match step.vars with
    | some vars => vars.foldl (pointerLoopBody array.length) []
    | none => []
  let highlights : List Num :=
    match step.vars with
    | some vars =>
      if step.type = "comparison" then
        highlightOf array.length (vars.get "i") ++ highlightOf array.length (vars.get "j")
      else []
    | none => []
  .array array pointers highlights

/-- The method `createRecursionVisualization(step)`. -/
def createRecursionVisualization (step : Step) : Visualization :=
  .recursion
    [{ function := "exampleFunction", parameters := step.vars.getD [], isCurrent := true }]

/-- The method `createGraphVisualization(step)`. -/
def createGraphVisualization (_step : Step) : Visualization :=
  .graph
    [⟨"A", "A", 1, 1⟩, ⟨"B", "B", 2, 2⟩, ⟨"C", "C", 3, 1⟩]
    [⟨"A", "B", true⟩, ⟨"B", "C", true⟩]
    ["B"]

/-- The array branch shared by the loop and comparison cases of
`createVisualizationForStep`: `step.variables && Array.isArray(step.variables.arr)`. -/
def arrayOrDefault (step : Step) (visualization : Visualization) : Visualization :=
  match step.vars with
  | some vars =>
    match (vars.get "arr").asArray? with
    | some items => createArrayVisualization items step
    | none => visualization
  | none => visualization

/-- The method `createVisualizationForStep(step)`. -/
def createVisualizationForStep (step : Step) : Visualization :=
  let visualization := Visualization.variablesView (step.vars.getD [])
  match step.type with
  | "start" => visualization
  | "end" => visualization
  | "loop_start" => arrayOrDefault step visualization
  | "for_loop" => arrayOrDefault step visualization
  | "while_loop" => arrayOrDefault step visualization
  | "comparison" => arrayOrDefault step visualization
  | "search_loop" => arrayOrDefault step visualization
  | "found_check" => arrayOrDefault step visualization
  | "recursive_call" => createRecursionVisualization step
  | "graph_visit" => createGraphVisualization step
  | _ => visualization

/-- The method `analyzeComplexity(step)`. -/
def analyzeComplexity (step : Step) : Complexity :=
  match step.type with
  | "for_loop" => ⟨"O(n)", "O(1)"⟩
  | "while_loop" => ⟨"O(n)", "O(1)"⟩
  | "recursive_call" => ⟨"O(2^n)", "O(n)"⟩
  | "comparison" => ⟨"O(1)", "O(1)"⟩
  | _ => ⟨"O(n)", "O(1)"⟩

/-! ## Text operations used by the input coercion -/

/-- The characters `String.prototype.trim` strips (white space and line
terminators). -/
def isWhiteSpace (c : Char) : Bool :=
  c.toNat ∈ [0x9, 0xA, 0xB, 0xC, 0xD, 0x20, 0xA0, 0x1680, 0x2028, 0x2029, 0x202F, 0x205F,
    0x3000, 0xFEFF] || (0x2000 ≤ c.toNat && c.toNat ≤ 0x200A)

/-- The method `s.trim()`. -/
def trim (s : String) : String :=
  ⟨((s.data.dropWhile isWhiteSpace).reverse.dropWhile isWhiteSpace).reverse⟩

/-- The method `s.startsWith(t)`. -/
def startsWith (s t : String) : Bool := t.data.isPrefixOf s.data

/-- The method `s.endsWith(t)`. -/
def endsWith (s t : String) : Bool := t.data.reverse.isPrefixOf s.data.reverse

/-- The call `s.slice(1, -1)`. -/
def sliceInner (s : String) : String := ⟨(s.data.drop 1).dropLast⟩

/-- Splitting a character sequence at every occurrence of `sep`; the result
always has at least one piece. -/
def splitChars (sep : Char) : List Char → List (List Char)
  | [] => [[]]
  | c :: cs =>
    if c = sep then [] :: splitChars sep cs
    else
      match splitChars sep cs with
      | [] => [[c]]
      | piece :: pieces => (c :: piece) :: pieces

/-- The method `s.split(sep)` for a one-character separator. -/
def split (s : String) (sep : Char) : List String :=
  (splitChars sep s.data).map String.mk

/-- The method `s.includes(t)`. -/
def includes (s t : String) : Bool :=
  s.data.tails.any fun rest => t.data.isPrefixOf rest

/-- The array index a property key denotes, when it is one: a decimal numeral
without leading zero below `2^32 - 1`. -/
def arrayIndex? (key : String) : Option Nat :=
  match key.data with
  | [] => none
  | c :: cs =>
    if (c :: cs).all Char.isDigit && (c ≠ '0' || cs.isEmpty) then
      let n := (c :: cs).foldl (fun acc d => 10 * acc + (d.toNat - '0'.toNat)) 0
      if n < 2 ^ 32 - 1 then some n else none
    else none

/-- Placing a new array-index key `n` among the properties: index keys come
first, in ascending order. -/
def insertIndexKey (n : Nat) (key : String) (v : Value) : Vars → Vars
  | [] => [(key, v)]
  | (k, w) :: rest =>
    match arrayIndex? k with
    | some m => if m < n then (k, w) :: insertIndexKey n key v rest else (key, v) :: (k, w) :: rest
    | none => (key, v) :: (k, w) :: rest

/-- The assignment `obj[key] = v` of a number, a boolean or a text to a plain
object, as `safeParseObject` makes it: an existing property keeps its place, a
new one is listed after the others unless its key is an array index.  The key
`__proto__` names the prototype accessor, whose setter ignores such a value,
so no property is stored. -/
def Vars.set (o : Vars) (key : String) (v : Value) : Vars :=
  if key = "__proto__" then o
  else if o.any (fun e => e.1 == key) then
    o.map fun e => if e.1 == key then (e.1, v) else e
  else
    match arrayIndex? key with
    | some n => insertIndexKey n key v o
    | none => o ++ [(key, v)]

/-! ## The host -/

/-- A thrown value; `message` is its `message` property, `none` when the
property is `undefined`. -/
structure JSError where
  message : Option String
  deriving Repr, DecidableEq

/-- The text a template literal produces for `${error.message}`. -/
def JSError.messageText (e : JSError) : String :=
  match e.message with
  | some m => m
  | none => "undefined"

/-- A value the evaluated program throws, told by what the `catch` block of
`executeAST` can do with it when it builds the literal of the `error` step
from `error.message`.
* `readable error`: the property is read and put into the literal, as it is
  for an error object and for any other object or primitive but the two
  below; `error.messageText` is the text the template literal shows for it.
* `unreadable raised`: building the literal raises `raised`, as it does for
  the thrown values `null` and `undefined`, which have no property to read.
  What is raised is an error of the language (a `TypeError`), whose own
  message can be read.
The property is taken to read the same each time it is read. -/
inductive Thrown where
  | readable (error : JSError) : Thrown
  | unreadable (raised : JSError) : Thrown
  deriving Repr, DecidableEq

/-- The fields of a syntax-tree node that the analysis callbacks read:
`type`, `loc.start.line` when `loc` is set, `id.name` when `id` is set, and for
a call `callee.type` and `callee.name`. -/
structure Node where
  type : String
  line : Option Int := none
  idName : Option String := none
  calleeType : String := ""
  calleeName : Option String := none
  deriving Repr, DecidableEq

/-- A syntax tree as the parser returns it. -/
inductive Ast where
  | node (info : Node) (children : List Ast) : Ast
  deriving Repr

/-- What one call of the walker does: it calls the visitor callbacks on
`visited`, in that order, and then raises `fault` when there is one. -/
structure WalkOutcome where
  visited : List Node
  fault : Option JSError := none
  deriving Repr

/-- What compiling the generated text and calling the function does, when the
call comes back.  The program reaches the executor through the `context`
argument, whose one method is `console.log`.
* `logs`: the calls of `context.console.log` made while the function runs, up
  to its final `return result || context.input`; each entry is one call, given
  as the text forms of its arguments under `join`;
* `completion`: the thrown value (a `SyntaxError` of `new Function` included),
  or else the value bound to `result` when the final line is reached, `none`
  when no binding of that name is in scope;
* `lateLogs`: the calls of `context.console.log` made after the function has
  returned or thrown, by the callbacks the program left behind (reactions of
  a promise, timers), up to the moment the step list is read.  `executeAST`
  has no `await` of its own, so it has appended its `end` or `error` step by
  the time the first of them runs. -/
structure EvalOutcome where
  logs : List (List String)
  completion : Except Thrown (Option Value)
  lateLogs : List (List String)

/-- The collaborators outside the repository.
* `jsonParse`: `JSON.parse`, `none` when it throws;
* `toNumber`: the numeric conversion behind `isNaN(text)`; `parseFloat`;
* `parse`: `acorn.parse(code, options)`;
* `simple`: `acornWalk.simple(ast, visitors)`;
* `simpleWithBase`: `acornWalk.simple(ast, visitors, this)`;
* `getOriginalCode`: the editor content read by `getOriginalCode`;
* `callFunction`: `new Function('input', 'context', code)` applied to the
  input and the context, up to the final `return` of the generated text;
* `halts`: whether that call comes back at all, by returning or by throwing,
  and the callbacks it leaves behind come to an end as well; a program such
  as `while (true) {}` makes it `false`, and then the call has no outcome:
  what `callFunction` says of it describes nothing;
* `now`: `Date.now()` when the list already holds the given number of steps. -/
structure Host where
  jsonParse : String → Option Value
  toNumber : String → Num
  parseFloat : String → Num
  parse : String → Except JSError Ast
  simple : Ast → WalkOutcome
  simpleWithBase : Ast → WalkOutcome
  getOriginalCode : Except JSError String
  callFunction : String → Value → EvalOutcome
  halts : String → Value → Bool
  now : Nat → Nat

/-! ## Input coercion -/

/-- The test `!isNaN(text)`. -/
def notNaN (h : Host) (text : String) : Bool :=
  match h.toNumber text with
  | .nan => false
  | _ => true

/-- The test for a token wrapped in a pair of the quote `q`. -/
def quotedBy (q : String) (text : String) : Bool := startsWith text q && endsWith text q

/-- The callback of `safeParseArray`, applied to one item. -/
def coerceItem (h : Host) (item : String) : Value :=
  let trimmed := trim item
  if notNaN h trimmed then .num (h.parseFloat trimmed)
  else if trimmed = "true" then .bool true
  else if trimmed = "false" then .bool false
  else if quotedBy "\"" trimmed then .str (sliceInner trimmed)
  else if quotedBy "'" trimmed then .str (sliceInner trimmed)
  else .str trimmed

/-- The method `safeParseArray(input)`. -/
def safeParseArray (h : Host) (input : String) : List Value :=
  let content := sliceInner (trim input)
  (split content ',').map (coerceItem h)

/-- The callback of `pairs.forEach` in `safeParseObject`. -/
def parsePair (h : Host) (obj : Vars) (pair : String) : Vars :=
  match (split pair ':').map trim with
  | key :: value :: _ =>
    if key ≠ "" then
      if notNaN h value then obj.set key (.num (h.parseFloat value))
      else if value = "true" then obj.set key (.bool true)
      else if value = "false" then obj.set key (.bool false)
      else if quotedBy "\"" value || quotedBy "'" value then obj.set key (.str (sliceInner value))
      else obj.set key (.str value)
    else obj
  | _ => obj

/-- The method `safeParseObject(input)`. -/
def safeParseObject (h : Host) (input : String) : Vars :=
  let content := sliceInner (trim input)
  (split content ',').foldl (parsePair h) []

/-- The method `safeParsePrimitive(input)`. -/
def safeParsePrimitive (h : Host) (input : String) : Value :=
  let trimmed := trim input
  if notNaN h trimmed then .num (h.parseFloat trimmed)
  else if trimmed = "true" then .bool true
  else if trimmed = "false" then .bool false
  else if quotedBy "\"" trimmed || quotedBy "'" trimmed then .str (sliceInner trimmed)
  else .str trimmed

/-- The input coercion at the head of `executeCode`: `JSON.parse` first, then
the three fallbacks by the look of the trimmed text. -/
def parseInput (h : Host) (input : String) : Value :=
  match h.jsonParse input with
  | some v => v
  | none =>
    if startsWith (trim input) "[" && endsWith (trim input) "]" then .arr (safeParseArray h input)
    else if startsWith (trim input) "\x7b" && endsWith (trim input) "\x7d" then
      .obj (safeParseObject h input)
    else safeParsePrimitive h input

/-! ## The executor -/

/-- An element of `executionSteps`: the step literal spread, then the four
fields `addExecutionStep` sets. -/
structure ExecutionStep extends Step where
  stepNumber : Nat
  visualization : Visualization
  complexity : Complexity
  timestamp : Nat
  deriving Repr

/-- The fields of a `CodeExecutor` instance. -/
structure CodeExecutor where
  executionContext : Vars := []
  currentLine : Int := 0
  executionSteps : List ExecutionStep := []
  variableStates : List Vars := []
  deriving Repr

/-- The outcome of a method that comes back: the executor afterwards, and the
returned value or the raised error. -/
abbrev Outcome (α : Type) := CodeExecutor × Except JSError α

/-- The method `addExecutionStep(step)`. -/
def addExecutionStep (h : Host) (self : CodeExecutor) (step : Step) : CodeExecutor :=
  let visualization := createVisualizationForStep step
  let complexity := analyzeComplexity step
  let executionStep : ExecutionStep :=
    { toStep := step
      stepNumber := self.executionSteps.length
      visualization := visualization
      complexity := complexity
      timestamp := h.now self.executionSteps.length }
  { self with executionSteps := self.executionSteps ++ [executionStep] }

/-- The expression `node.loc ? node.loc.start.line - 1 : this.currentLine`. -/
def lineOf (self : CodeExecutor) (node : Node) : Int :=
  match node.line with
  | some l => l - 1
  | none => self.currentLine

/-- The error of reading `.name` of a `null` identifier. -/
def nullNameError : JSError := ⟨some "Cannot read properties of null (reading 'name')"⟩

/-- Running the visitor callback on the visited nodes in order; a callback
that raises ends the walk, and a walk that visits every node ends with the
walker's own fault when it has one. -/
def runVisitors (visit : CodeExecutor → Node → Except JSError CodeExecutor)
    (fault : Option JSError) : List Node → CodeExecutor → Outcome Unit
  | [], self =>
    match fault with
    | some e => (self, .error e)
    | none => (self, .ok ())
  | node :: rest, self =>
    match visit self node with
    | .ok self' => runVisitors visit fault rest self'
    | .error e => (self, .error e)

/-- The callback that appends one step of the given kind for a node. -/
def emit (h : Host) (type explanation : String) (self : CodeExecutor) (node : Node) : CodeExecutor :=
  addExecutionStep h self
    { type := type, explanation := some explanation, lineNumber := some (lineOf self node) }

/-- The visitors of `analyzeSortAlgorithm`. -/
def sortVisitor (h : Host) (self : CodeExecutor) (node : Node) : Except JSError CodeExecutor :=
  match node.type with
  | "ForStatement" => .ok (emit h "loop_start" "Starting sorting loop" self node)
  | "IfStatement" => .ok (emit h "comparison" "Comparing elements" self node)
  | _ => .ok self

/-- The method `analyzeSortAlgorithm(ast)`. -/
def analyzeSortAlgorithm (h : Host) (self : CodeExecutor) (ast : Ast) : Outcome Unit :=
  let walk := h.simpleWithBase ast
  runVisitors (sortVisitor h) walk.fault walk.visited self

/-- The visitors of `analyzeSearchAlgorithm`. -/
def searchVisitor (h : Host) (self : CodeExecutor) (node : Node) : Except JSError CodeExecutor :=
  match node.type with
  | "WhileStatement" => .ok (emit h "search_loop" "Searching through elements" self node)
  | "IfStatement" => .ok (emit h "found_check" "Checking if element found" self node)
  | _ => .ok self

/-- The method `analyzeSearchAlgorithm(ast)`. -/
def analyzeSearchAlgorithm (h : Host) (self : CodeExecutor) (ast : Ast) : Outcome Unit :=
  let walk := h.simpleWithBase ast
  runVisitors (searchVisitor h) walk.fault walk.visited self

/-- The visitor of `analyzeGraphAlgorithm`. -/
def graphVisitor (h : Host) (self : CodeExecutor) (node : Node) : Except JSError CodeExecutor :=
  match node.type with
  | "FunctionDeclaration" =>
    match node.idName with
    | some name =>
      if includes name "visit" then .ok (emit h "graph_visit" "Visiting graph node" self node)
      else .ok self
    | none => .ok self
  | _ => .ok self

/-- The method `analyzeGraphAlgorithm(ast)`. -/
def analyzeGraphAlgorithm (h : Host) (self : CodeExecutor) (ast : Ast) : Outcome Unit :=
  let walk := h.simpleWithBase ast
  runVisitors (graphVisitor h) walk.fault walk.visited self

/-- The two visitors of `isRecursiveCall` acting on its local flags
`(hasFunction, callsItself)`. -/
def recursionFlagsStep (functionName : Option String) (flags : Bool × Bool) (node : Node) :
    Except JSError (Bool × Bool) :=
  match node.type with
  | "FunctionDeclaration" =>
    match node.idName with
    | some name => if some name = functionName then .ok (true, flags.2) else .ok flags
    | none => .error nullNameError
  | "CallExpression" =>
    if flags.1 && node.calleeType = "Identifier" && node.calleeName = functionName then
      .ok (flags.1, true)
    else .ok flags
  | _ => .ok flags

/-- The walk of `isRecursiveCall` over the visited nodes. -/
def recursionFlags (functionName : Option String) (fault : Option JSError) :
    List Node → Bool × Bool → Except JSError (Bool × Bool)
  | [], flags =>
    match fault with
    | some e => .error e
    | none => .ok flags
  | node :: rest, flags =>
    match recursionFlagsStep functionName flags node with
    | .ok flags' => recursionFlags functionName fault rest flags'
    | .error e => .error e

/-- The method `isRecursiveCall(functionName, ast)`. -/
def isRecursiveCall (h : Host) (functionName : Option String) (ast : Ast) : Except JSError Bool :=
  let walk := h.simple ast
  match recursionFlags functionName walk.fault walk.visited (false, false) with
  | .ok flags => .ok flags.2
  | .error e => .error e

/-- The visitor of `analyzeRecursiveAlgorithm`. -/
def recursiveVisitor (h : Host) (ast : Ast) (self : CodeExecutor) (node : Node) :
    Except JSError CodeExecutor :=
  match node.type with
  | "CallExpression" =>
    if node.calleeType = "Identifier" then
      match isRecursiveCall h node.calleeName ast with
      | .ok true => .ok (emit h "recursive_call" "Making recursive call" self node)
      | .ok false => .ok self
      | .error e => .error e
    else .ok self
  | _ => .ok self

/-- The method `analyzeRecursiveAlgorithm(ast)`. -/
def analyzeRecursiveAlgorithm (h : Host) (self : CodeExecutor) (ast : Ast) : Outcome Unit :=
  let walk := h.simpleWithBase ast
  runVisitors (recursiveVisitor h ast) walk.fault walk.visited self

/-- The visitors of `analyzeGenericAlgorithm`. -/
def genericVisitor (h : Host) (self : CodeExecutor) (node : Node) : Except JSError CodeExecutor :=
  match node.type with
  | "FunctionDeclaration" =>
    match node.idName with
    | some name => .ok (emit h "function_declaration" ("Declared function: " ++ name) self node)
    | none => .error nullNameError
  | "VariableDeclaration" => .ok (emit h "variable_declaration" "Declared variables" self node)
  | "ForStatement" => .ok (emit h "for_loop" "Starting for loop" self node)
  | "WhileStatement" => .ok (emit h "while_loop" "Starting while loop" self node)
  | "IfStatement" => .ok (emit h "if_statement" "Conditional statement" self node)
  | "ReturnStatement" => .ok (emit h "return" "Return statement" self node)
  | _ => .ok self

/-- The method `analyzeGenericAlgorithm(ast)`. -/
def analyzeGenericAlgorithm (h : Host) (self : CodeExecutor) (ast : Ast) : Outcome Unit :=
  let walk := h.simpleWithBase ast
  runVisitors (genericVisitor h) walk.fault walk.visited self

/-- The error of calling `this.analyzeDPAlgorithm`, a method the class does
not define. -/
def missingDPError : JSError := ⟨some "this.analyzeDPAlgorithm is not a function"⟩

/-- The method `analyzeAST(ast, algorithmType)`. -/
def analyzeAST (h : Host) (self : CodeExecutor) (ast : Ast) (algorithmType : String) :
    Outcome Unit :=
  let self := addExecutionStep h self
    { type := "start", explanation := some "Starting execution",
      vars := some self.executionContext }
  match algorithmType with
  | "sort" => analyzeSortAlgorithm h self ast
  | "search" => analyzeSearchAlgorithm h self ast
  | "graph" => analyzeGraphAlgorithm h self ast
  | "dp" => (self, .error missingDPError)
  | "recursion" => analyzeRecursiveAlgorithm h self ast
  | _ => analyzeGenericAlgorithm h self ast

/-- The truth value of a script value in a condition. -/
def Value.truthy : Value → Bool
  | .undefined => false
  | .null => false
  | .bool b => b
  | .num .nan => false
  | .num (.fin q) => decide (q ≠ 0)
  | .num _ => true
  | .str s => decide (s ≠ "")
  | _ => true

/-- The method `generateCodeFromAST(ast)`, given the text `getOriginalCode()`
returned. -/
def generateCodeFromAST (original : String) : String :=
  "try \x7b\n            " ++ original ++
  "\n            return result || context.input;\n        \x7d catch (e) \x7b\n            throw e;\n        \x7d"

/-- The final line `return result || context.input` of the generated text. -/
def finalValue (result : Option Value) (input : Value) : Except JSError Value :=
  match result with
  | some r => if r.truthy then .ok r else .ok input
  | none => .error ⟨some "result is not defined"⟩

/-- The steps the `console.log` of the execution context appends, one for each
call. -/
def runLogs (h : Host) (self : CodeExecutor) (logs : List (List String)) : CodeExecutor :=
  logs.foldl
    (fun self args =>
      addExecutionStep h self
        { type := "log", message := some (String.intercalate " " args),
          lineNumber := some self.currentLine })
    self

/-- The `try` block of `executeAST` up to the value of `result`: the code is
generated, compiled and called.  What reaches the `catch` block is the error
of `getOriginalCode`, the value the program throws, or the `ReferenceError` of
the final line. -/
def callGenerated (h : Host) (self : CodeExecutor) : CodeExecutor × Except Thrown Value :=
  match h.getOriginalCode with
  | .error e => (self, .error (.readable e))
  | .ok original =>
    let input := self.executionContext.get "input"
    let run := h.callFunction (generateCodeFromAST original) input
    let self := runLogs h self run.logs
    match run.completion with
    | .error thrown => (self, .error thrown)
    | .ok result =>
      match finalValue result input with
      | .error e => (self, .error (.readable e))
      | .ok value => (self, .ok value)

/-- The method `executeAST(ast)`.  Its `catch` block builds the literal of the
`error` step before it calls `addExecutionStep`: when reading `error.message`
raises, no step is appended and what the method raises is the error of the
read, not the thrown value. -/
def executeAST (h : Host) (self : CodeExecutor) (_ast : Ast) : Outcome (List ExecutionStep) :=
  match callGenerated h self with
  | (self, .ok result) =>
    let self := addExecutionStep h self
      { type := "end", explanation := some "Execution completed", result := some result,
        vars := some self.executionContext }
    (self, .ok self.executionSteps)
  | (self, .error (.readable error)) =>
    let self := addExecutionStep h self
      { type := "error", explanation := some ("Error: " ++ error.messageText),
        error := error.message }
    (self, .error error)
  | (self, .error (.unreadable raised)) => (self, .error raised)

/-- The calls of `context.console.log` still to come when `executeAST` is
left: those of the callbacks that the program called by `executeAST` left
behind; none when the text of the program could not be read, so that no
function was called. -/
def pendingLogs (h : Host) (self : CodeExecutor) : List (List String) :=
  match h.getOriginalCode with
  | .error _ => []
  | .ok original =>
    (h.callFunction (generateCodeFromAST original) (self.executionContext.get "input")).lateLogs

/-- The `catch` block of `executeJavaScript`. -/
def wrapJavaScriptError (error : JSError) : JSError :=
  ⟨some ("JavaScript execution failed: " ++ error.messageText)⟩

/-- The method `executeJavaScript(code, algorithmType)`.  It takes the result
of `executeAST` through an `await`, and the caller of `executeCode` takes its
result through another: the callbacks the program left behind run in between,
after `executeAST` is left and before the steps are returned or the error is
raised, and the steps returned are the list `executionSteps` itself. -/
def executeJavaScript (h : Host) (self : CodeExecutor) (code algorithmType : String) :
    Outcome (List ExecutionStep) :=
  match h.parse code with
  | .error error => (self, .error (wrapJavaScriptError error))
  | .ok ast =>
    match analyzeAST h self ast algorithmType with
    | (self, .error error) => (self, .error (wrapJavaScriptError error))
    | (self, .ok ()) =>
      let late := pendingLogs h self
      match executeAST h self ast with
      | (self, .error error) => (runLogs h self late, .error (wrapJavaScriptError error))
      | (self, .ok _) =>
        let self := runLogs h self late
        (self, .ok self.executionSteps)

/-- The body shared by the three simulated languages: a `start` step and an
`end` step with fixed texts. -/
def simulated (h : Host) (self : CodeExecutor) (name : String) : Outcome (List ExecutionStep) :=
  let self := addExecutionStep h self
    { type := "start", explanation := some (name ++ " execution started (simulated)"),
      vars := some [("input", .str (name ++ " code"))] }
  let self := addExecutionStep h self
    { type := "end", explanation := some (name ++ " execution completed (simulated)"),
      vars := some [("result", .str (name ++ " result"))] }
  (self, .ok self.executionSteps)

/-- The method `executePython(code, algorithmType)`. -/
def executePython (h : Host) (self : CodeExecutor) (_code _algorithmType : String) :
    Outcome (List ExecutionStep) :=
  simulated h self "Python"

/-- The method `executeJava(code, algorithmType)`. -/
def executeJava (h : Host) (self : CodeExecutor) (_code _algorithmType : String) :
    Outcome (List ExecutionStep) :=
  simulated h self "Java"

/-- The method `executeCStyle(code, algorithmType)`. -/
def executeCStyle (h : Host) (self : CodeExecutor) (_code _algorithmType : String) :
    Outcome (List ExecutionStep) :=
  simulated h self "C-style"

/-- The statements of `executeCode` before the `switch`: the three fields are
reset, the input is coerced and the execution context is set up. -/
def prepare (h : Host) (self : CodeExecutor) (input : String) : CodeExecutor :=
  let self := { self with executionSteps := [], variableStates := [], currentLine := 0 }
  let parsedInput := parseInput h input
  { self with
    executionContext := [("input", parsedInput), ("console", .obj [("log", .func "log")])] }

/-- The method `executeCode(code, input, algorithmType, language)`.  The
promise it returns is the outcome: fulfilled with the steps or rejected with
the error.  The methods it returns the promise of are not awaited inside its
`try`, so their rejection reaches the caller as it is.  The outcome is that of
a call that comes to an end; `settles` below tells whether it does. -/
def executeCode (h : Host) (self : CodeExecutor) (code input algorithmType language : String) :
    Outcome (List ExecutionStep) :=
  let self := prepare h self input
  match language with
  | "javascript" => executeJavaScript h self code algorithmType
  | "python" => executePython h self code algorithmType
  | "java" => executeJava h self code algorithmType
  | "c" => executeCStyle h self code algorithmType
  | _ => executeJavaScript h self code algorithmType

/-- Whether a call of `executeCode` comes to an end, so that its promise is
settled and the caller goes on.  It follows the path of the call: the
simulated languages, a rejected text, a failed analysis and an unreadable
editor end the run at once (the calls of the parser and of the walker come
back, with the outcomes the host gives).  Otherwise the program is compiled and
called, synchronously and once; the methods keep no counter, budget or timer,
so the run ends when that call does and not before. -/
def settles (h : Host) (self : CodeExecutor) (code input algorithmType language : String) :
    Bool :=
  let self := prepare h self input
  match language with
  | "python" => true
  | "java" => true
  | "c" => true
  | _ =>
    match h.parse code with
    | .error _ => true
    | .ok ast =>
      match analyzeAST h self ast algorithmType with
      | (_, .error _) => true
      | (self, .ok ()) =>
        match h.getOriginalCode with
        | .error _ => true
        | .ok original =>
          h.halts (generateCodeFromAST original) (self.executionContext.get "input")

/-! ## Vocabulary of the statements -/

/-- The kinds of the recorded steps, in order. -/
def kinds (self : CodeExecutor) : List String := self.executionSteps.map (·.type)

/-- The `stepNumber` fields of the recorded steps, in order. -/
def stepNumbers (self : CodeExecutor) : List Nat := self.executionSteps.map (·.stepNumber)

/-- A kind other than the two terminal ones, `end` and `error`. -/
def midKind (t : String) : Prop := t ≠ "end" ∧ t ≠ "error"

instance midKindDecidable (t : String) : Decidable (midKind t) := by
  unfold midKind
  infer_instance

/-- The executor `s'` is `s` after appending steps of the kinds `ks`, each
numbered with its position in the list; the context and the current line are
those of `s`. -/
def GrowsBy (ks : List String) (s s' : CodeExecutor) : Prop :=
  s'.executionContext = s.executionContext ∧ s'.currentLine = s.currentLine ∧
  kinds s' = kinds s ++ ks ∧
  stepNumbers s' = stepNumbers s ++ List.range' s.executionSteps.length ks.length

/-- The executor `s'` is `s` after appending steps of non-terminal kinds. -/
def Grows (s s' : CodeExecutor) : Prop :=
  ∃ ks : List String, (∀ t ∈ ks, midKind t) ∧ GrowsBy ks s s'

/-- The four ways a run of the JavaScript path or of a simulated language
ends, told by the kinds it appended to `s` and by its result: nothing and an
error; `start` and non-terminal steps and an error; `start`, non-terminal
steps, `end` and late `log` steps, returned; or `start`, non-terminal steps,
`error` and late `log` steps, and an error. -/
def RunShape (s : CodeExecutor) (r : Outcome (List ExecutionStep)) : Prop :=
  (∃ e, r.2 = .error e ∧ GrowsBy [] s r.1) ∨
  (∃ e mids, (∀ t ∈ mids, midKind t) ∧ r.2 = .error e ∧ GrowsBy ("start" :: mids) s r.1) ∨
  (∃ mids lates, (∀ t ∈ mids, midKind t) ∧ (∀ t ∈ lates, t = "log") ∧
    r.2 = .ok r.1.executionSteps ∧ GrowsBy (("start" :: mids) ++ "end" :: lates) s r.1) ∨
  (∃ e mids lates, (∀ t ∈ mids, midKind t) ∧ (∀ t ∈ lates, t = "log") ∧ r.2 = .error e ∧
    GrowsBy (("start" :: mids) ++ "error" :: lates) s r.1)

/-- The pointers of a visualization (none unless it is an array one). -/
def Visualization.pointers : Visualization → List Pointer
  | .array _ p _ => p
  | _ => []

/-- The highlights of an array visualization (none for the other shapes). -/
def Visualization.arrayHighlights : Visualization → List Num
  | .array _ _ hl => hl
  | _ => []

/-- The test `typeof v === 'number' && v >= 0 && v < len`, read as a property
of the value: a finite number in `[0, len)`, integer or not. -/
def inRange (len : Nat) : Value → Bool
  | .num (.fin q) => decide (0 ≤ q ∧ q < (len : ℚ))
  | _ => false

/-- A host for the examples: the parser rejects the text `function f(`
and accepts every other text as a program with one loop and one branch; the
walker reports the two nodes; the program logs once and binds `result` to its
input. -/
def demoHost : Host where
  jsonParse := fun _ => none
  toNumber := fun _ => .nan
  parseFloat := fun _ => .nan
  parse := fun code =>
    if code = "function f(" then .error ⟨some "Unexpected token (1:11)"⟩
    else .ok (.node { type := "Program" }
      [.node { type := "ForStatement" } [.node { type := "IfStatement" } []]])
  simple := fun _ => ⟨[], none⟩
  simpleWithBase := fun _ => ⟨[{ type := "IfStatement" }, { type := "ForStatement" }], none⟩
  getOriginalCode := .ok "const result = input;"
  callFunction := fun _ input =>
    { logs := [["sorted"]], completion := .ok (some input), lateLogs := [] }
  halts := fun _ _ => true
  now := fun k => k

/-- The example host with a program that throws when it runs. -/
def faultingHost : Host :=
  { demoHost with
    getOriginalCode := .ok "null.length;"
    callFunction := fun _ _ =>
      { logs := []
        completion := .error (.readable ⟨some "Cannot read properties of null (reading 'length')"⟩)
        lateLogs := [] } }

/-- The frames of a recursion visualization (none for the other shapes). -/
def Visualization.callStack : Visualization → List Frame
  | .recursion cs => cs
  | _ => []

/-- The six loop and comparison kinds of the array rule. -/
def arrayKinds : List String :=
  ["loop_start", "for_loop", "while_loop", "comparison", "search_loop", "found_check"]

/-- The complexity table as the specification words it, keyed by the kind. -/
def complexityTable (kind : String) : Complexity :=
  if kind = "for_loop" ∨ kind = "while_loop" then ⟨"O(n)", "O(1)"⟩
  else if kind = "recursive_call" then ⟨"O(2^n)", "O(n)"⟩
  else if kind = "comparison" then ⟨"O(1)", "O(1)"⟩
  else ⟨"O(n)", "O(1)"⟩

/-- Every step of the list carries the visualization and the complexity that
`addExecutionStep` computes from its literal. -/
def Decorated (s : CodeExecutor) : Prop :=
  ∀ st ∈ s.executionSteps,
    st.visualization = createVisualizationForStep st.toStep ∧
      st.complexity = analyzeComplexity st.toStep

/-- The nodes of a tree, children first and left to right, each node after
its descendants: the order in which the walker's `simple` calls the
visitors. -/
def postOrder : Ast → List Node
  | .node info children => postOrderAll children ++ [info]
where
  /-- The nodes of a sequence of trees, tree by tree. -/
  postOrderAll : List Ast → List Node
    | [] => []
    | t :: ts => postOrder t ++ postOrderAll ts

/-- Whether a node is a call whose callee is the identifier `f`. -/
def isCallTo (f : String) (n : Node) : Bool :=
  n.type == "CallExpression" && n.calleeType == "Identifier" && n.calleeName == some f

/-- Whether a node is the declaration of the function `f`. -/
def declares (f : String) (n : Node) : Bool :=
  n.type == "FunctionDeclaration" && n.idName == some f

/-- The recursion test as the specification words it: some declaration of `f`
in the tree has a call to `f` among the nodes below it. -/
def callsItselfInBody (f : String) : Ast → Bool
  | .node info children =>
    (declares f info && (postOrder.postOrderAll children).any (isCallTo f)) ||
      callsItselfInBodyAll f children
where
  /-- The same test over a sequence of trees. -/
  callsItselfInBodyAll (f : String) : List Ast → Bool
    | [] => false
    | t :: ts => callsItselfInBody f t || callsItselfInBodyAll f ts

/-- The tree of `function f() { return 1; } f();`: a function that does
not call itself, called once after its declaration. -/
def calledOnceAst : Ast :=
  .node { type := "Program" }
    [.node { type := "FunctionDeclaration", idName := some "f" }
        [.node { type := "BlockStatement" }
          [.node { type := "ReturnStatement" } [.node { type := "Literal" } []]]],
      .node { type := "ExpressionStatement" }
        [.node { type := "CallExpression", calleeType := "Identifier", calleeName := some "f" }
          [.node { type := "Identifier" } []]]]

/-- The tree of `function f() { return f(); }`: a function that calls
itself and is called from nowhere else. -/
def selfCallingAst : Ast :=
  .node { type := "Program" }
    [.node { type := "FunctionDeclaration", idName := some "f" }
      [.node { type := "BlockStatement" }
        [.node { type := "ReturnStatement" }
          [.node { type := "CallExpression", calleeType := "Identifier", calleeName := some "f" }
            [.node { type := "Identifier" } []]]]]]

/-- The text of a recursive factorial program. -/
def factorialSource : String :=
  "function factorial(n) \x7b if (n <= 1) return 1; return n * factorial(n - 1); \x7d " ++
  "const result = factorial(input);"

/-- The tree of `factorialSource`. -/
def factorialAst : Ast :=
  .node { type := "Program" }
    [.node { type := "FunctionDeclaration", idName := some "factorial" }
        [.node { type := "BlockStatement" }
          [.node { type := "IfStatement" }
              [.node { type := "BinaryExpression" } [],
                .node { type := "ReturnStatement" } [.node { type := "Literal" } []]],
            .node { type := "ReturnStatement" }
              [.node { type := "BinaryExpression" }
                [.node { type := "Identifier" } [],
                  .node { type := "CallExpression", calleeType := "Identifier",
                          calleeName := some "factorial" }
                    [.node { type := "BinaryExpression" } []]]]]],
      .node { type := "VariableDeclaration" }
        [.node { type := "VariableDeclarator" }
          [.node { type := "CallExpression", calleeType := "Identifier",
                   calleeName := some "factorial" }
            [.node { type := "Identifier" } []]]]]

/-- A host for the examples on trees: the parser knows the factorial text;
both walks report every node of the tree children first and call the visitors
on the executor; `JSON.parse` reads the text `5`; the numeric conversions are
those of the language on the empty text and on the texts `1` and `2`, the only
ones the examples convert; the factorial program binds `result` to 120. -/
def treeHost : Host where
  jsonParse := fun text => if text = "5" then some (.num (.fin 5)) else none
  toNumber := fun text =>
    if text = "" then .fin 0 else if text = "1" then .fin 1 else if text = "2" then .fin 2
    else .nan
  parseFloat := fun text =>
    if text = "1" then .fin 1 else if text = "2" then .fin 2 else .nan
  parse := fun code =>
    if code = factorialSource then .ok factorialAst else .error ⟨some "Unexpected token"⟩
  simple := fun ast => ⟨postOrder ast, none⟩
  simpleWithBase := fun ast => ⟨postOrder ast, none⟩
  getOriginalCode := .ok factorialSource
  callFunction := fun _ _ =>
    { logs := [], completion := .ok (some (.num (.fin 120))), lateLogs := [] }
  halts := fun _ _ => true
  now := fun k => k

/-- A host for the example of a falsy result: the input text `[5, 7]` is
read by `JSON.parse`; the program `const result = input.indexOf(5);` has no
node of interest, logs nothing and binds `result` to 0, the position of 5. -/
def indexZeroHost : Host where
  jsonParse := fun text =>
    if text = "[5, 7]" then some (.arr [.num (.fin 5), .num (.fin 7)]) else none
  toNumber := fun _ => .nan
  parseFloat := fun _ => .nan
  parse := fun _ => .ok (.node { type := "Program" } [.node { type := "VariableDeclaration" } []])
  simple := fun ast => ⟨postOrder ast, none⟩
  simpleWithBase := fun ast => ⟨postOrder ast, none⟩
  getOriginalCode := .ok "const result = input.indexOf(5);"
  callFunction := fun _ _ =>
    { logs := [], completion := .ok (some (.num (.fin 0))), lateLogs := [] }
  halts := fun _ _ => true
  now := fun k => k

/-- The text of a program that logs from the reaction of a promise: the
reaction runs after the function compiled from the text has returned. -/
def lateLogSource : String :=
  "Promise.resolve().then(() => context.console.log('late')); const result = 1;"

/-- A host for the example of a late log: the input text `[]` is read by
`JSON.parse`; the tree of `lateLogSource` has one node of interest, its
declaration; the program logs nothing while it runs, binds `result` to 1, and
its reaction logs `late` once the function has returned. -/
def lateLogHost : Host where
  jsonParse := fun text => if text = "[]" then some (.arr []) else none
  toNumber := fun _ => .nan
  parseFloat := fun _ => .nan
  parse := fun _ =>
    .ok (.node { type := "Program" }
      [.node { type := "ExpressionStatement" } [], .node { type := "VariableDeclaration" } []])
  simple := fun ast => ⟨postOrder ast, none⟩
  simpleWithBase := fun ast => ⟨postOrder ast, none⟩
  getOriginalCode := .ok lateLogSource
  callFunction := fun _ _ =>
    { logs := [], completion := .ok (some (.num (.fin 1))), lateLogs := [["late"]] }
  halts := fun _ _ => true
  now := fun k => k

/-- The text of a program that throws a `TypeError` after it has queued a
reaction that logs. -/
def lateFaultSource : String :=
  "Promise.resolve().then(() => context.console.log('late')); null.length;"

/-- The host of the late log with the program of `lateFaultSource`. -/
def lateFaultHost : Host :=
  { lateLogHost with
    parse := fun _ =>
      .ok (.node { type := "Program" }
        [.node { type := "ExpressionStatement" } [], .node { type := "ExpressionStatement" } []])
    getOriginalCode := .ok lateFaultSource
    callFunction := fun _ _ =>
      { logs := []
        completion := .error (.readable ⟨some "Cannot read properties of null (reading 'length')"⟩)
        lateLogs := [["late"]] } }

/-- The host of the late log with the program `throw null;`: the thrown value
has no `message` to read, and the read raises a `TypeError`. -/
def nullThrowHost : Host :=
  { lateLogHost with
    parse := fun _ => .ok (.node { type := "Program" } [.node { type := "ThrowStatement" } []])
    getOriginalCode := .ok "throw null;"
    callFunction := fun _ _ =>
      { logs := []
        completion :=
          .error (.unreadable ⟨some "Cannot read properties of null (reading 'message')"⟩)
        lateLogs := [] } }

/-- The text of the program `while (true) {}`. -/
def loopSource : String := "while (true) \x7b\x7d"

/-- The host of the late log with the program `while (true) {}`, whose call
never comes back: `halts` is `false`, and `callFunction` has nothing to
describe. -/
def loopHost : Host :=
  { lateLogHost with
    parse := fun _ => .ok (.node { type := "Program" } [.node { type := "WhileStatement" } []])
    getOriginalCode := .ok loopSource
    callFunction := fun _ _ => { logs := [], completion := .ok none, lateLogs := [] }
    halts := fun _ _ => false }

/-- The kind of the step a reported node yields under each hint, `none` when
the node yields no step; under `recursion` the answer of `isRecursiveCall` is
taken from the host's walk of the tree. -/
def interestKind (h : Host) (ast : Ast) (algorithmType : String) (node : Node) : Option String :=
  match algorithmType with
  | "sort" =>
    if node.type = "ForStatement" then some "loop_start"
    else if node.type = "IfStatement" then some "comparison"
    else none
  | "search" =>
    if node.type = "WhileStatement" then some "search_loop"
    else if node.type = "IfStatement" then some "found_check"
    else none
  | "graph" =>
    if node.type = "FunctionDeclaration" ∧ (node.idName.map (includes · "visit")) = some true then
      some "graph_visit"
    else none
  | "dp" => none
  | "recursion" =>
    if node.type = "CallExpression" ∧ node.calleeType = "Identifier" then
      match isRecursiveCall h node.calleeName ast with
      | .ok true => some "recursive_call"
      | _ => none
    else none
  | _ =>
    if node.type = "FunctionDeclaration" then some "function_declaration"
    else if node.type = "VariableDeclaration" then some "variable_declaration"
    else if node.type = "ForStatement" then some "for_loop"
    else if node.type = "WhileStatement" then some "while_loop"
    else if node.type = "IfStatement" then some "if_statement"
    else if node.type = "ReturnStatement" then some "return"
    else none

/-- The nodes the walk of `analyzeAST` is given for a hint: those the host's
walker reports, and none for `dp`, which starts no walk. -/
def reported (h : Host) (ast : Ast) (algorithmType : String) : List Node :=
  if algorithmType = "dp" then [] else (h.simpleWithBase ast).visited

/-- The twelve kinds of interest-point steps. -/
def interestKinds : List String :=
  ["loop_start", "comparison", "search_loop", "found_check", "recursive_call", "graph_visit",
    "function_declaration", "variable_declaration", "for_loop", "while_loop", "if_statement",
    "return"]

/-- No step of the list that has one of the twelve interest-point kinds
carries a `variables` field. -/
def InterestBare (s : CodeExecutor) : Prop :=
  ∀ st ∈ s.executionSteps, st.type ∈ interestKinds → st.vars = none

/-- A step literal that is free of variables unless it is a `start` or an
`end` step. -/
def BareLiteral (step : Step) : Prop :=
  step.vars = none ∨ step.type = "start" ∨ step.type = "end"

/-! ## The example programs (`src/assets/examples.js`) -/

/-- The script comparison `a < b` of two numbers. -/
def Num.lt : Num → Num → Bool
  | .fin p, .fin q => decide (p < q)
  | .fin _, .posInf => true
  | .negInf, .fin _ => true
  | .negInf, .posInf => true
  | _, _ => false

/-- The script comparison `a > b` of two numbers. -/
def Num.gt (a b : Num) : Bool := Num.lt b a

/-- The script comparison `a === b` of two numbers. -/
def Num.strictEq : Num → Num → Bool
  | .fin p, .fin q => decide (p = q)
  | .posInf, .posInf => true
  | .negInf, .negInf => true
  | _, _ => false

/-- The script comparison `a <= b` of two numbers. -/
def Num.le (a b : Num) : Bool := Num.lt a b || Num.strictEq a b

/-- The body of the inner loop of `bubbleSort` at index `j`: the two
neighbours are exchanged when `arr[j] > arr[j + 1]`. -/
def swapIfGreater (arr : List Num) (j : Nat) : List Num :=
  match arr[j]?, arr[j + 1]? with
  | some a, some b => if Num.gt a b then (arr.set j b).set (j + 1) a else arr
  | _, _ => arr

/-- The inner loop `for (let j = 0; j < n - i - 1; j++)` of `bubbleSort`; the
bound does not change while the loop runs and the body leaves `j` alone, so the
loop is the fold of its body over `0, ..., n - i - 2`. -/
def bubbleInner (n i : Nat) (arr : List Num) : List Num :=
  (List.range (n - i - 1)).foldl swapIfGreater arr

/-- The function `bubbleSort(arr)` of the bubble sort example, on an array of
numbers: `n = arr.length`, and the outer loop `for (let i = 0; i < n - 1; i++)`
is the fold of the inner loop over `0, ..., n - 2`. -/
def bubbleSort (arr : List Num) : List Num :=
  let n := arr.length
  (List.range (n - 1)).foldl (fun current i => bubbleInner n i current) arr

/-- One run of the inner loop read along the list instead of by index: `k`
comparisons of neighbours from the head on, the greater of each pair moving
on.  It is proved equal to the loop over the indices. -/
def bubblePass : Nat → List Num → List Num
  | k + 1, a :: b :: rest =>
    if Num.gt a b then b :: bubblePass k (a :: rest) else a :: bubblePass k (b :: rest)
  | _, l => l

/-- The element read `arr[i]` at an integer index, `none` when it reads
`undefined`. -/
def elemAt (arr : List Num) (i : Int) : Option Num :=
  if i < 0 then none else arr[i.toNat]?

/-- The `while (left <= right)` loop of `binarySearch`, from the values of
`left` and `right` on entry to the returned value; `mid` is
`Math.floor((left + right) / 2)`. -/
def binarySearchLoop (arr : List Num) (target : Num) (left right : Int) : Int :=
  if left ≤ right then
    match elemAt arr ((left + right) / 2) with
    | some x =>
      if Num.strictEq x target then (left + right) / 2
      else if Num.lt x target then binarySearchLoop arr target ((left + right) / 2 + 1) right
      else binarySearchLoop arr target left ((left + right) / 2 - 1)
    | none => binarySearchLoop arr target left ((left + right) / 2 - 1)
  else -1
termination_by (right + 1 - left).toNat
decreasing_by
  all_goals simp_wf
  all_goals omega

/-- The function `binarySearch(arr, target)` of the binary search example, on
an array of numbers and a number. -/
def binarySearch (arr : List Num) (target : Num) : Int :=
  binarySearchLoop arr target 0 ((arr.length : Int) - 1)

/-! ## The playback (`src/js/main.js`) -/

/-- The fields of an `AlgorithmVisualizer` that the playback methods read and
write; `autoPlayInterval` is the handle of the timer, `none` for `null`.  The
page the methods update is not part of the state. -/
structure AlgorithmVisualizer where
  currentStep : Int
  executionSteps : List ExecutionStep
  isRunning : Bool
  autoPlayInterval : Option Nat
  deriving Repr

/-- The method `visualizeStep(stepIndex)`. -/
def visualizeStep (self : AlgorithmVisualizer) (stepIndex : Int) : AlgorithmVisualizer :=
  if stepIndex < 0 ∨ stepIndex ≥ (self.executionSteps.length : Int) then self
  else { self with currentStep := stepIndex }

/-- The method `pauseExecution()`. -/
def pauseExecution (self : AlgorithmVisualizer) : AlgorithmVisualizer :=
  { self with isRunning := false, autoPlayInterval := none }

/-- The step forward shared by `stepExecution` and the timer callback. -/
def advance (self : AlgorithmVisualizer) : AlgorithmVisualizer :=
  if self.currentStep < (self.executionSteps.length : Int) - 1 then
    visualizeStep { self with currentStep := self.currentStep + 1 } (self.currentStep + 1)
  else pauseExecution self

/-- The method `stepExecution()`. -/
def stepExecution (self : AlgorithmVisualizer) : AlgorithmVisualizer :=
  if !self.isRunning || self.executionSteps.length = 0 then self
  else advance self

/-- The method `startAutoPlay()`, `handle` being what `setInterval` returns. -/
def startAutoPlay (self : AlgorithmVisualizer) (handle : Nat) : AlgorithmVisualizer :=
  { self with autoPlayInterval := some handle }

/-- One firing of the timer that `startAutoPlay` sets; a cleared timer does
not fire. -/
def autoPlayTick (self : AlgorithmVisualizer) : AlgorithmVisualizer :=
  if self.autoPlayInterval.isSome then advance self else self

/-- The method `resetVisualization()`. -/
def resetVisualization (self : AlgorithmVisualizer) : AlgorithmVisualizer :=
  { self with isRunning := false, currentStep := 0, autoPlayInterval := none }

/-- The method `resumeExecution()`; `autoPlay` is the state of the auto-play
box. -/
def resumeExecution (self : AlgorithmVisualizer) (autoPlay : Bool) (handle : Nat) :
    AlgorithmVisualizer :=
  if self.currentStep ≥ (self.executionSteps.length : Int) then resetVisualization self
  else if autoPlay then startAutoPlay { self with isRunning := true } handle
  else { self with isRunning := true }

/-- The method `togglePause()`. -/
def togglePause (self : AlgorithmVisualizer) (autoPlay : Bool) (handle : Nat) :
    AlgorithmVisualizer :=
  if self.isRunning then pauseExecution self else resumeExecution self autoPlay handle

/-- What can happen to the playback once a run has filled `executionSteps`. -/
inductive PlaybackEvent where
  | visualizeStep (stepIndex : Int)
  | stepExecution
  | autoPlayTick
  | resetVisualization
  | togglePause (autoPlay : Bool) (handle : Nat)
  deriving Repr

/-- The playback after one event. -/
def playbackStep (self : AlgorithmVisualizer) : PlaybackEvent → AlgorithmVisualizer
  | .visualizeStep stepIndex => visualizeStep self stepIndex
  | .stepExecution => stepExecution self
  | .autoPlayTick => autoPlayTick self
  | .resetVisualization => resetVisualization self
  | .togglePause autoPlay handle => togglePause self autoPlay handle

/-- The playback after a sequence of events. -/
def playback (self : AlgorithmVisualizer) (events : List PlaybackEvent) : AlgorithmVisualizer :=
  events.foldl playbackStep self

/-- The playback right after `runVisualization` has received the steps of a
run: it is running, at step 0, with the timer set when the auto-play box is
ticked. -/
def afterRun (steps : List ExecutionStep) (autoPlay : Bool) (handle : Nat) :
    AlgorithmVisualizer :=
  let self : AlgorithmVisualizer :=
    { currentStep := 0, executionSteps := steps, isRunning := true, autoPlayInterval := none }
  let self := visualizeStep self 0
  if autoPlay then startAutoPlay self handle else self

/-! ## How the step list grows -/

theorem kinds_length (s : CodeExecutor) : (kinds s).length = s.executionSteps.length := by
  simp [kinds]

theorem growsBy_nil (s : CodeExecutor) : GrowsBy [] s s :=
  ⟨rfl, rfl, by simp, by simp⟩

theorem growsBy_length {ks : List String} {a b : CodeExecutor} (hab : GrowsBy ks a b) :
    b.executionSteps.length = a.executionSteps.length + ks.length := by
  have hlen := congrArg List.length hab.2.2.1
  simpa [kinds_length] using hlen

theorem growsBy_append {ks₁ ks₂ : List String} {a b c : CodeExecutor}
    (hab : GrowsBy ks₁ a b) (hbc : GrowsBy ks₂ b c) : GrowsBy (ks₁ ++ ks₂) a c := by
  have hlen := growsBy_length hab
  obtain ⟨hc1, hl1, hkinds1, hnum1⟩ := hab
  obtain ⟨hc2, hl2, hkinds2, hnum2⟩ := hbc
  refine ⟨hc2.trans hc1, hl2.trans hl1, ?_, ?_⟩
  · rw [hkinds2, hkinds1, List.append_assoc]
  · rw [hnum2, hnum1, hlen, List.append_assoc, List.length_append]
    congr 1
    have hr := List.range'_append a.executionSteps.length ks₁.length ks₂.length 1
    simpa [Nat.add_comm] using hr

theorem growsBy_add (h : Host) (s : CodeExecutor) (step : Step) :
    GrowsBy [step.type] s (addExecutionStep h s step) := by
  refine ⟨rfl, rfl, ?_, ?_⟩
  · simp [kinds, addExecutionStep]
  · simp [stepNumbers, addExecutionStep]

theorem grows_refl (s : CodeExecutor) : Grows s s :=
  ⟨[], by simp, growsBy_nil s⟩

theorem grows_trans {a b c : CodeExecutor} (hab : Grows a b) (hbc : Grows b c) : Grows a c := by
  obtain ⟨ks₁, hk₁, h₁⟩ := hab
  obtain ⟨ks₂, hk₂, h₂⟩ := hbc
  refine ⟨ks₁ ++ ks₂, ?_, growsBy_append h₁ h₂⟩
  intro t ht
  rcases List.mem_append.1 ht with hm | hm
  · exact hk₁ t hm
  · exact hk₂ t hm

theorem grows_add (h : Host) (s : CodeExecutor) (step : Step) (hk : midKind step.type) :
    Grows s (addExecutionStep h s step) := by
  refine ⟨[step.type], ?_, growsBy_add h s step⟩
  intro t ht
  rw [List.mem_singleton] at ht
  exact ht ▸ hk

theorem emit_grows (h : Host) (type explanation : String) (s : CodeExecutor) (node : Node)
    (hk : midKind type) : Grows s (emit h type explanation s node) :=
  grows_add h s _ hk

theorem sortVisitor_grows (h : Host) (s s' : CodeExecutor) (node : Node)
    (hv : sortVisitor h s node = .ok s') : Grows s s' := by
  unfold sortVisitor at hv
  split at hv <;> cases hv
  · exact emit_grows h _ _ s node (by decide)
  · exact emit_grows h _ _ s node (by decide)
  · exact grows_refl s

theorem searchVisitor_grows (h : Host) (s s' : CodeExecutor) (node : Node)
    (hv : searchVisitor h s node = .ok s') : Grows s s' := by
  unfold searchVisitor at hv
  split at hv <;> cases hv
  · exact emit_grows h _ _ s node (by decide)
  · exact emit_grows h _ _ s node (by decide)
  · exact grows_refl s

theorem graphVisitor_grows (h : Host) (s s' : CodeExecutor) (node : Node)
    (hv : graphVisitor h s node = .ok s') : Grows s s' := by
  unfold graphVisitor at hv
  split at hv
  · split at hv
    · split at hv <;> cases hv
      · exact emit_grows h _ _ s node (by decide)
      · exact grows_refl s
    · cases hv
      exact grows_refl s
  · cases hv
    exact grows_refl s

theorem recursiveVisitor_grows (h : Host) (ast : Ast) (s s' : CodeExecutor) (node : Node)
    (hv : recursiveVisitor h ast s node = .ok s') : Grows s s' := by
  unfold recursiveVisitor at hv
  split at hv
  · split at hv
    · split at hv <;> cases hv
      · exact emit_grows h _ _ s node (by decide)
      · exact grows_refl s
    · cases hv
      exact grows_refl s
  · cases hv
    exact grows_refl s

theorem genericVisitor_grows (h : Host) (s s' : CodeExecutor) (node : Node)
    (hv : genericVisitor h s node = .ok s') : Grows s s' := by
  unfold genericVisitor at hv
  split at hv
  · split at hv <;> cases hv
    exact emit_grows h _ _ s node (by decide)
  all_goals cases hv
  · exact emit_grows h _ _ s node (by decide)
  · exact emit_grows h _ _ s node (by decide)
  · exact emit_grows h _ _ s node (by decide)
  · exact emit_grows h _ _ s node (by decide)
  · exact emit_grows h _ _ s node (by decide)
  · exact grows_refl s

theorem runVisitors_grows (visit : CodeExecutor → Node → Except JSError CodeExecutor)
    (hvisit : ∀ s s' node, visit s node = .ok s' → Grows s s')
    (fault : Option JSError) (nodes : List Node) (s : CodeExecutor) :
    Grows s (runVisitors visit fault nodes s).1 := by
  induction nodes generalizing s with
  | nil =>
    unfold runVisitors
    cases fault <;> exact grows_refl s
  | cons node rest ih =>
    unfold runVisitors
    cases hv : visit s node with
    | ok s' => exact grows_trans (hvisit s s' node hv) (ih s')
    | error e => exact grows_refl s

theorem runLogs_grows (h : Host) (logs : List (List String)) (s : CodeExecutor) :
    Grows s (runLogs h s logs) := by
  induction logs generalizing s with
  | nil => exact grows_refl s
  | cons args rest ih =>
    unfold runLogs
    rw [List.foldl_cons]
    exact grows_trans (grows_add h s _ (show midKind "log" by decide)) (ih _)

theorem callGenerated_fst (h : Host) (s : CodeExecutor) :
    ∃ logs, (callGenerated h s).1 = runLogs h s logs := by
  unfold callGenerated
  cases h.getOriginalCode with
  | error e => exact ⟨[], rfl⟩
  | ok original =>
    refine ⟨(h.callFunction (generateCodeFromAST original)
      (s.executionContext.get "input")).logs, ?_⟩
    dsimp only
    cases (h.callFunction (generateCodeFromAST original)
      (s.executionContext.get "input")).completion with
    | error thrown => rfl
    | ok result =>
      dsimp only
      cases finalValue result (s.executionContext.get "input") <;> rfl

theorem callGenerated_grows (h : Host) (s : CodeExecutor) : Grows s (callGenerated h s).1 := by
  obtain ⟨logs, hl⟩ := callGenerated_fst h s
  rw [hl]
  exact runLogs_grows h logs s

theorem runLogs_lates (h : Host) (logs : List (List String)) (s : CodeExecutor) :
    ∃ lates : List String, (∀ t ∈ lates, t = "log") ∧ GrowsBy lates s (runLogs h s logs) := by
  induction logs generalizing s with
  | nil => exact ⟨[], by simp, growsBy_nil s⟩
  | cons args rest ih =>
    unfold runLogs
    rw [List.foldl_cons]
    obtain ⟨lates, hl, hby⟩ := ih (addExecutionStep h s
      { type := "log", message := some (String.intercalate " " args),
        lineNumber := some s.currentLine })
    refine ⟨"log" :: lates, ?_, ?_⟩
    · intro t ht
      rcases List.mem_cons.1 ht with rfl | hm
      · rfl
      · exact hl t hm
    · exact growsBy_append (growsBy_add h s _) hby

theorem grows_startThen {h : Host} {s s' : CodeExecutor} {step : Step} (hs : step.type = "start")
    (hg : Grows (addExecutionStep h s step) s') :
    ∃ mids, (∀ t ∈ mids, midKind t) ∧ GrowsBy ("start" :: mids) s s' := by
  obtain ⟨mids, hmids, hby⟩ := hg
  refine ⟨mids, hmids, ?_⟩
  have h1 := growsBy_add h s step
  rw [hs] at h1
  exact growsBy_append h1 hby

theorem analyzeAST_shape (h : Host) (s : CodeExecutor) (ast : Ast) (algorithmType : String) :
    ∃ mids, (∀ t ∈ mids, midKind t) ∧
      GrowsBy ("start" :: mids) s (analyzeAST h s ast algorithmType).1 := by
  unfold analyzeAST
  dsimp only
  split
  · exact grows_startThen rfl (runVisitors_grows _ (sortVisitor_grows h) _ _ _)
  · exact grows_startThen rfl (runVisitors_grows _ (searchVisitor_grows h) _ _ _)
  · exact grows_startThen rfl (runVisitors_grows _ (graphVisitor_grows h) _ _ _)
  · exact grows_startThen rfl (grows_refl _)
  · exact grows_startThen rfl (runVisitors_grows _ (recursiveVisitor_grows h _) _ _ _)
  · exact grows_startThen rfl (runVisitors_grows _ (genericVisitor_grows h) _ _ _)

theorem executeAST_shape (h : Host) (s : CodeExecutor) (ast : Ast) :
    (∃ mids, (∀ t ∈ mids, midKind t) ∧
      (executeAST h s ast).2 = .ok (executeAST h s ast).1.executionSteps ∧
      GrowsBy (mids ++ ["end"]) s (executeAST h s ast).1) ∨
    (∃ e mids, (∀ t ∈ mids, midKind t) ∧ (executeAST h s ast).2 = .error e ∧
      (callGenerated h s).2 = .error (.readable e) ∧
      GrowsBy (mids ++ ["error"]) s (executeAST h s ast).1) ∨
    (∃ e mids, (∀ t ∈ mids, midKind t) ∧ (executeAST h s ast).2 = .error e ∧
      (callGenerated h s).2 = .error (.unreadable e) ∧
      GrowsBy mids s (executeAST h s ast).1) := by
  have hg := callGenerated_grows h s
  unfold executeAST
  rcases hcg : callGenerated h s with ⟨s1, (e | e) | v⟩
  · right; left
    rw [hcg] at hg
    obtain ⟨mids, hmids, hby⟩ := hg
    exact ⟨e, mids, hmids, rfl, rfl, growsBy_append hby (growsBy_add h s1 _)⟩
  · right; right
    rw [hcg] at hg
    obtain ⟨mids, hmids, hby⟩ := hg
    exact ⟨e, mids, hmids, rfl, rfl, hby⟩
  · left
    rw [hcg] at hg
    obtain ⟨mids, hmids, hby⟩ := hg
    exact ⟨mids, hmids, rfl, growsBy_append hby (growsBy_add h s1 _)⟩

theorem executeJavaScript_shape (h : Host) (s : CodeExecutor) (code algorithmType : String) :
    RunShape s (executeJavaScript h s code algorithmType) := by
  unfold executeJavaScript
  cases hp : h.parse code with
  | error e => exact Or.inl ⟨_, rfl, growsBy_nil s⟩
  | ok ast =>
    dsimp only
    obtain ⟨mids, hmids, hby⟩ := analyzeAST_shape h s ast algorithmType
    rcases ha : analyzeAST h s ast algorithmType with ⟨s1, e | u⟩
    · rw [ha] at hby
      exact Or.inr (Or.inl ⟨_, mids, hmids, rfl, hby⟩)
    · rw [ha] at hby
      dsimp only
      have mem : ∀ {m2 : List String}, (∀ t ∈ m2, midKind t) → ∀ t ∈ mids ++ m2, midKind t := by
        intro m2 hm2 t ht
        rcases List.mem_append.1 ht with hm | hm
        · exact hmids t hm
        · exact hm2 t hm
      rcases executeAST_shape h s1 ast with
        ⟨m2, hm2, hres, hby2⟩ | ⟨e, m2, hm2, hres, _, hby2⟩ | ⟨e, m2, hm2, hres, _, hby2⟩
      · rcases hx : executeAST h s1 ast with ⟨s2, e' | v⟩
        · rw [hx] at hres; cases hres
        · rw [hx] at hby2
          obtain ⟨lates, hl, hby3⟩ := runLogs_lates h (pendingLogs h s1) s2
          refine Or.inr (Or.inr (Or.inl ⟨mids ++ m2, lates, mem hm2, hl, rfl, ?_⟩))
          have := growsBy_append (growsBy_append hby hby2) hby3
          simpa [List.append_assoc] using this
      · rcases hx : executeAST h s1 ast with ⟨s2, e' | v⟩
        · rw [hx] at hby2
          obtain ⟨lates, hl, hby3⟩ := runLogs_lates h (pendingLogs h s1) s2
          refine Or.inr (Or.inr (Or.inr ⟨_, mids ++ m2, lates, mem hm2, hl, rfl, ?_⟩))
          have := growsBy_append (growsBy_append hby hby2) hby3
          simpa [List.append_assoc] using this
        · rw [hx] at hres; cases hres
      · rcases hx : executeAST h s1 ast with ⟨s2, e' | v⟩
        · rw [hx] at hby2
          obtain ⟨lates, hl, hby3⟩ := runLogs_lates h (pendingLogs h s1) s2
          refine Or.inr (Or.inl ⟨_, mids ++ (m2 ++ lates), ?_, rfl, ?_⟩)
          · refine mem ?_
            intro t ht
            rcases List.mem_append.1 ht with hm | hm
            · exact hm2 t hm
            · rw [hl t hm]
              decide
          · have := growsBy_append (growsBy_append hby hby2) hby3
            simpa [List.append_assoc] using this
        · rw [hx] at hres; cases hres

theorem simulated_shape (h : Host) (s : CodeExecutor) (name : String) :
    (simulated h s name).2 = .ok (simulated h s name).1.executionSteps ∧
      GrowsBy ["start", "end"] s (simulated h s name).1 := by
  refine ⟨rfl, ?_⟩
  exact growsBy_append (growsBy_add h s _) (growsBy_add h _ _)

theorem simulated_runShape (h : Host) (s : CodeExecutor) (name : String) :
    RunShape s (simulated h s name) :=
  Or.inr (Or.inr (Or.inl ⟨[], [], by simp, by simp, (simulated_shape h s name).1,
    (simulated_shape h s name).2⟩))

theorem executeCode_shape (h : Host) (s : CodeExecutor) (code input algorithmType language : String) :
    RunShape (prepare h s input) (executeCode h s code input algorithmType language) := by
  unfold executeCode
  dsimp only
  split
  · exact executeJavaScript_shape h _ code algorithmType
  · exact simulated_runShape h _ "Python"
  · exact simulated_runShape h _ "Java"
  · exact simulated_runShape h _ "C-style"
  · exact executeJavaScript_shape h _ code algorithmType

theorem prepare_steps (h : Host) (s : CodeExecutor) (input : String) :
    (prepare h s input).executionSteps = [] := rfl

/-- After a run the kinds and the step numbers are those appended to the empty
list. -/
theorem growsBy_fromPrepared {h : Host} {s s' : CodeExecutor} {input : String} {ks : List String}
    (hby : GrowsBy ks (prepare h s input) s') :
    kinds s' = ks ∧ stepNumbers s' = List.range s'.executionSteps.length := by
  have hlen := growsBy_length hby
  obtain ⟨_, _, hk, hn⟩ := hby
  rw [prepare_steps] at hlen
  simp only [kinds, stepNumbers, prepare_steps, List.map_nil, List.nil_append, List.length_nil] at hk hn
  refine ⟨hk, ?_⟩
  rw [stepNumbers, hn, hlen, List.range_eq_range']
  simp

theorem executeCode_eq_javascript (h : Host) (s : CodeExecutor)
    (code input algorithmType language : String)
    (hlang : language ≠ "python" ∧ language ≠ "java" ∧ language ≠ "c") :
    executeCode h s code input algorithmType language =
      executeJavaScript h (prepare h s input) code algorithmType := by
  unfold executeCode
  dsimp only
  split
  · rfl
  · exact absurd rfl hlang.1
  · exact absurd rfl hlang.2.1
  · exact absurd rfl hlang.2.2
  · rfl

theorem append_ne_empty (a b : String) (ha : a ≠ "") : a ++ b ≠ "" := by
  intro hab
  apply ha
  have hlen := congrArg String.length hab
  rw [String.length_append] at hlen
  have h0 : a.length = 0 := by
    have : ("" : String).length = 0 := rfl
    omega
  exact String.ext (List.length_eq_zero.1 h0)

theorem returned_kinds (h : Host) (self : CodeExecutor)
    (code input algorithmType language : String) (trace : List ExecutionStep)
    (hret : (executeCode h self code input algorithmType language).2 = .ok trace) :
    ∃ mids lates : List String, (∀ t ∈ mids, midKind t) ∧ (∀ t ∈ lates, t = "log") ∧
      trace.map (·.type) = ("start" :: mids) ++ "end" :: lates := by
  rcases executeCode_shape h self code input algorithmType language with
    ⟨e, he, _⟩ | ⟨e, mids, _, he, _⟩ | ⟨mids, lates, hm, hl, hok, hby⟩ |
      ⟨e, mids, lates, _, _, he, _⟩
  · rw [he] at hret; cases hret
  · rw [he] at hret; cases hret
  · rw [hok] at hret
    cases hret
    exact ⟨mids, lates, hm, hl, (growsBy_fromPrepared hby).1⟩
  · rw [he] at hret; cases hret

theorem getLast_afterTerminal (front lates : List String) (t : String)
    (hl : ∀ x ∈ lates, x = "log") :
    (front ++ t :: lates).getLast? = some t ∨ (front ++ t :: lates).getLast? = some "log" := by
  rcases List.eq_nil_or_concat lates with rfl | ⟨L, b, rfl⟩
  · left
    exact List.getLast?_concat front
  · right
    rw [List.concat_eq_append] at hl ⊢
    have hb : b = "log" := hl b (by simp)
    have hassoc : front ++ t :: (L ++ [b]) = (front ++ t :: L) ++ [b] := by simp
    rw [hassoc, List.getLast?_concat, hb]

theorem addExecutionStep_steps (h : Host) (s : CodeExecutor) (step : Step) :
    ∃ st : ExecutionStep, st.toStep = step ∧
      (addExecutionStep h s step).executionSteps = s.executionSteps ++ [st] :=
  ⟨_, rfl, rfl⟩

theorem runLogs_steps (h : Host) (logs : List (List String)) (s : CodeExecutor) :
    ∃ added : List ExecutionStep,
      (runLogs h s logs).executionSteps = s.executionSteps ++ added ∧
        ∀ st ∈ added, st.type = "log" := by
  induction logs generalizing s with
  | nil => exact ⟨[], by simp [runLogs], by simp⟩
  | cons args rest ih =>
    obtain ⟨st, hst, hadd⟩ := addExecutionStep_steps h s
      { type := "log", message := some (String.intercalate " " args),
        lineNumber := some s.currentLine }
    obtain ⟨added, ha, hl⟩ := ih (addExecutionStep h s
      { type := "log", message := some (String.intercalate " " args),
        lineNumber := some s.currentLine })
    refine ⟨st :: added, ?_, ?_⟩
    · show (runLogs h (addExecutionStep h s
        { type := "log", message := some (String.intercalate " " args),
          lineNumber := some s.currentLine }) rest).executionSteps = _
      rw [ha, hadd]
      simp
    · intro x hx
      rcases List.mem_cons.1 hx with rfl | hm
      · show x.toStep.type = "log"
        rw [hst]
      · exact hl x hm

theorem callGenerated_mid (h : Host) (s : CodeExecutor) (input : String) (ast : Ast)
    (algorithmType : String) :
    ∀ st ∈ (callGenerated h
        (analyzeAST h (prepare h s input) ast algorithmType).1).1.executionSteps,
      midKind st.type := by
  obtain ⟨mids, hmids, hby⟩ := analyzeAST_shape h (prepare h s input) ast algorithmType
  obtain ⟨m2, hm2, hby2⟩ :=
    callGenerated_grows h (analyzeAST h (prepare h s input) ast algorithmType).1
  have hk := (growsBy_fromPrepared (growsBy_append hby hby2)).1
  intro st hst
  have hmem : st.type ∈ kinds (callGenerated h
      (analyzeAST h (prepare h s input) ast algorithmType).1).1 :=
    List.mem_map_of_mem _ hst
  rw [hk] at hmem
  simp only [List.mem_append, List.mem_cons] at hmem
  rcases hmem with (hs | hm) | hm
  · rw [hs]
    decide
  · exact hmids _ hm
  · exact hm2 _ hm

theorem executeJavaScript_readable (h : Host) (s : CodeExecutor) (code algorithmType : String)
    (ast : Ast) (e : JSError) (hparse : h.parse code = .ok ast)
    (hana : (analyzeAST h s ast algorithmType).2 = .ok ())
    (heval : (callGenerated h (analyzeAST h s ast algorithmType).1).2 = .error (.readable e)) :
    executeJavaScript h s code algorithmType =
      (runLogs h
        (addExecutionStep h (callGenerated h (analyzeAST h s ast algorithmType).1).1
          { type := "error", explanation := some ("Error: " ++ e.messageText),
            error := e.message })
        (pendingLogs h (analyzeAST h s ast algorithmType).1),
        .error (wrapJavaScriptError e)) := by
  unfold executeJavaScript
  rw [hparse]
  dsimp only
  rcases ha : analyzeAST h s ast algorithmType with ⟨s1, e1 | u⟩
  · rw [ha] at hana; cases hana
  · rw [ha] at heval
    dsimp only at heval ⊢
    unfold executeAST
    rcases hc : callGenerated h s1 with ⟨s2, (e2 | e2) | v⟩
    · rw [hc] at heval
      cases heval
      rfl
    · rw [hc] at heval
      cases heval
    · rw [hc] at heval
      cases heval

theorem executeJavaScript_unreadable (h : Host) (s : CodeExecutor)
    (code algorithmType : String) (ast : Ast) (raised : JSError)
    (hparse : h.parse code = .ok ast)
    (hana : (analyzeAST h s ast algorithmType).2 = .ok ())
    (heval : (callGenerated h (analyzeAST h s ast algorithmType).1).2 =
      .error (.unreadable raised)) :
    executeJavaScript h s code algorithmType =
      (runLogs h (callGenerated h (analyzeAST h s ast algorithmType).1).1
        (pendingLogs h (analyzeAST h s ast algorithmType).1),
        .error (wrapJavaScriptError raised)) := by
  unfold executeJavaScript
  rw [hparse]
  dsimp only
  rcases ha : analyzeAST h s ast algorithmType with ⟨s1, e1 | u⟩
  · rw [ha] at hana; cases hana
  · rw [ha] at heval
    dsimp only at heval ⊢
    unfold executeAST
    rcases hc : callGenerated h s1 with ⟨s2, (e2 | e2) | v⟩
    · rw [hc] at heval
      cases heval
    · rw [hc] at heval
      cases heval
      rfl
    · rw [hc] at heval
      cases heval

/-- C1, as the code has it: every call of `executeCode` that returns a trace
returns one with at least two steps, whose first step has kind `start`, which
holds one step of kind `end` and none of kind `error` before it, and in which
the steps that follow the `end` step all have kind `log`; so its last step has
kind `end` or `log`. -/
theorem executeCode_trace_shape (h : Host) (self : CodeExecutor)
    (code input algorithmType language : String) (trace : List ExecutionStep)
    (hret : (executeCode h self code input algorithmType language).2 = .ok trace) :
    2 ≤ trace.length ∧ trace.head?.map (·.type) = some "start" ∧
      (∃ mids lates : List String,
        trace.map (·.type) = ("start" :: mids) ++ "end" :: lates ∧
          (∀ t ∈ mids, t ≠ "end" ∧ t ≠ "error") ∧ (∀ t ∈ lates, t = "log")) ∧
      (trace.getLast?.map (·.type) = some "end" ∨
        trace.getLast?.map (·.type) = some "log") := by
  obtain ⟨mids, lates, hm, hl, hk⟩ :=
    returned_kinds h self code input algorithmType language trace hret
  have hlen := congrArg List.length hk
  have hhead := congrArg List.head? hk
  simp only [List.length_map, List.length_cons, List.length_append] at hlen
  rw [List.head?_map] at hhead
  refine ⟨by omega, by simpa using hhead, ⟨mids, lates, hk, hm, hl⟩, ?_⟩
  rw [← List.getLast?_map, hk]
  exact getLast_afterTerminal ("start" :: mids) lates "end" hl

/-- Witness of C1 as amended: a run of the example host on the sort hint. -/
theorem executeCode_trace_shape_witness :
    (executeCode demoHost {} "for(;;) if (a) b" "x" "sort" "javascript").2 =
        .ok (executeCode demoHost {} "for(;;) if (a) b" "x" "sort" "javascript").1.executionSteps ∧
      2 ≤ (executeCode demoHost {} "for(;;) if (a) b" "x" "sort" "javascript").1.executionSteps.length ∧
      (executeCode demoHost {} "for(;;) if (a) b" "x" "sort" "javascript").1.executionSteps.head?.map
        (·.type) = some "start" ∧
      ((executeCode demoHost {} "for(;;) if (a) b" "x" "sort"
          "javascript").1.executionSteps.getLast?.map (·.type) = some "end" ∨
        (executeCode demoHost {} "for(;;) if (a) b" "x" "sort"
          "javascript").1.executionSteps.getLast?.map (·.type) = some "log") :=
  ⟨rfl,
    (executeCode_trace_shape demoHost {} "for(;;) if (a) b" "x" "sort" "javascript"
      (executeCode demoHost {} "for(;;) if (a) b" "x" "sort" "javascript").1.executionSteps
      rfl).1,
    (executeCode_trace_shape demoHost {} "for(;;) if (a) b" "x" "sort" "javascript"
      (executeCode demoHost {} "for(;;) if (a) b" "x" "sort" "javascript").1.executionSteps
      rfl).2.1,
    (executeCode_trace_shape demoHost {} "for(;;) if (a) b" "x" "sort" "javascript"
      (executeCode demoHost {} "for(;;) if (a) b" "x" "sort" "javascript").1.executionSteps
      rfl).2.2.2⟩

/-- Counterexample to C1: the program of `lateLogSource` queues a reaction
that logs; the run returns the four steps `start`, `variable_declaration`,
`end`, `log`, and the last step of the returned trace has kind `log`, neither
`end` nor `error`. -/
theorem executeCode_late_log_last :
    (executeCode lateLogHost {} lateLogSource "[]" "generic" "javascript").2 =
        .ok (executeCode lateLogHost {} lateLogSource "[]" "generic"
          "javascript").1.executionSteps ∧
      (executeCode lateLogHost {} lateLogSource "[]" "generic"
        "javascript").1.executionSteps.map (·.type) =
        ["start", "variable_declaration", "end", "log"] ∧
      (executeCode lateLogHost {} lateLogSource "[]" "generic"
        "javascript").1.executionSteps.getLast?.map (·.type) = some "log" ∧
      (executeCode lateLogHost {} lateLogSource "[]" "generic"
        "javascript").1.executionSteps.getLast?.bind (·.message) = some "late" :=
  ⟨rfl, rfl, rfl, rfl⟩

/-- C2: after every run of `executeCode`, whatever steps the executor held
before, the step at position `k` of `executionSteps` has `stepNumber` `k`. -/
theorem executeCode_stepNumbers (h : Host) (self : CodeExecutor)
    (code input algorithmType language : String) :
    (executeCode h self code input algorithmType language).1.executionSteps.map (·.stepNumber) =
      List.range (executeCode h self code input algorithmType language).1.executionSteps.length := by
  rcases executeCode_shape h self code input algorithmType language with
    ⟨_, _, hby⟩ | ⟨_, _, _, _, hby⟩ | ⟨_, _, _, _, _, hby⟩ | ⟨_, _, _, _, _, _, hby⟩ <;>
  exact (growsBy_fromPrepared hby).2

/-- C3, as the code has it: when the evaluation of the program on the
JavaScript path throws, `executeCode` raises and returns no trace.  For a
thrown value whose `message` can be read, the step list holds one step of kind
`error`, which carries that message; no step of kind `end` or `error` precedes
it, only steps of kind `log` follow it, and the error raised has the message
behind the text `JavaScript execution failed: `.  For a thrown `null` or
`undefined`, whose `message` cannot be read, no step of kind `end` or `error`
is recorded at all, and the error raised has the message of the failed read
behind that text. -/
theorem executeCode_fault_rethrown (h : Host) (self : CodeExecutor)
    (code input algorithmType language : String) (ast : Ast) (thrown : Thrown)
    (hlang : language ≠ "python" ∧ language ≠ "java" ∧ language ≠ "c")
    (hparse : h.parse code = .ok ast)
    (hana : (analyzeAST h (prepare h self input) ast algorithmType).2 = .ok ())
    (heval : (callGenerated h (analyzeAST h (prepare h self input) ast algorithmType).1).2 =
      .error thrown) :
    match thrown with
    | .readable e =>
      (executeCode h self code input algorithmType language).2 =
          .error ⟨some ("JavaScript execution failed: " ++ e.messageText)⟩ ∧
        ∃ (earlier : List ExecutionStep) (errorStep : ExecutionStep)
            (later : List ExecutionStep),
          (executeCode h self code input algorithmType language).1.executionSteps =
              earlier ++ errorStep :: later ∧
            (∀ st ∈ earlier, st.type ≠ "end" ∧ st.type ≠ "error") ∧
            errorStep.type = "error" ∧
            errorStep.explanation = some ("Error: " ++ e.messageText) ∧
            errorStep.error = e.message ∧
            (∀ st ∈ later, st.type = "log")
    | .unreadable raised =>
      (executeCode h self code input algorithmType language).2 =
          .error ⟨some ("JavaScript execution failed: " ++ raised.messageText)⟩ ∧
        ∀ st ∈ (executeCode h self code input algorithmType language).1.executionSteps,
          st.type ≠ "end" ∧ st.type ≠ "error" := by
  have hmid := callGenerated_mid h self input ast algorithmType
  rw [executeCode_eq_javascript h self code input algorithmType language hlang]
  cases thrown with
  | readable e =>
    dsimp only
    rw [executeJavaScript_readable h _ code algorithmType ast e hparse hana heval]
    obtain ⟨st, hst, hadd⟩ := addExecutionStep_steps h
      (callGenerated h (analyzeAST h (prepare h self input) ast algorithmType).1).1
      { type := "error", explanation := some ("Error: " ++ e.messageText), error := e.message }
    obtain ⟨added, hadded, hlog⟩ := runLogs_steps h
      (pendingLogs h (analyzeAST h (prepare h self input) ast algorithmType).1)
      (addExecutionStep h
        (callGenerated h (analyzeAST h (prepare h self input) ast algorithmType).1).1
        { type := "error", explanation := some ("Error: " ++ e.messageText),
          error := e.message })
    refine ⟨rfl, _, st, added, ?_, hmid, ?_, ?_, ?_, hlog⟩
    · dsimp only
      rw [hadded, hadd]
      simp
    · show st.toStep.type = "error"
      rw [hst]
    · show st.toStep.explanation = _
      rw [hst]
    · show st.toStep.error = _
      rw [hst]
  | unreadable raised =>
    dsimp only
    rw [executeJavaScript_unreadable h _ code algorithmType ast raised hparse hana heval]
    obtain ⟨added, hadded, hlog⟩ := runLogs_steps h
      (pendingLogs h (analyzeAST h (prepare h self input) ast algorithmType).1)
      (callGenerated h (analyzeAST h (prepare h self input) ast algorithmType).1).1
    refine ⟨rfl, ?_⟩
    dsimp only
    rw [hadded]
    intro st hst
    rcases List.mem_append.1 hst with hm | hm
    · exact hmid st hm
    · rw [hlog st hm]
      decide

/-- Witness of C3 as amended: a program that throws a `TypeError` after it
has queued a reaction that logs, and the program `throw null;`. -/
theorem executeCode_fault_rethrown_witness :
    ((executeCode lateFaultHost {} lateFaultSource "[]" "generic" "javascript").2 =
        .error ⟨some ("JavaScript execution failed: " ++
          "Cannot read properties of null (reading 'length')")⟩ ∧
      ∃ (earlier : List ExecutionStep) (errorStep : ExecutionStep)
          (later : List ExecutionStep),
        (executeCode lateFaultHost {} lateFaultSource "[]" "generic"
            "javascript").1.executionSteps = earlier ++ errorStep :: later ∧
          (∀ st ∈ earlier, st.type ≠ "end" ∧ st.type ≠ "error") ∧
          errorStep.type = "error" ∧
          errorStep.explanation =
            some ("Error: " ++ "Cannot read properties of null (reading 'length')") ∧
          errorStep.error = some "Cannot read properties of null (reading 'length')" ∧
          (∀ st ∈ later, st.type = "log")) ∧
    ((executeCode nullThrowHost {} "throw null;" "[]" "generic" "javascript").2 =
        .error ⟨some ("JavaScript execution failed: " ++
          "Cannot read properties of null (reading 'message')")⟩ ∧
      ∀ st ∈ (executeCode nullThrowHost {} "throw null;" "[]" "generic"
          "javascript").1.executionSteps,
        st.type ≠ "end" ∧ st.type ≠ "error") :=
  ⟨executeCode_fault_rethrown lateFaultHost {} lateFaultSource "[]" "generic" "javascript"
      (.node { type := "Program" }
        [.node { type := "ExpressionStatement" } [], .node { type := "ExpressionStatement" } []])
      (.readable ⟨some "Cannot read properties of null (reading 'length')"⟩)
      ⟨by decide, by decide, by decide⟩ rfl rfl rfl,
    executeCode_fault_rethrown nullThrowHost {} "throw null;" "[]" "generic" "javascript"
      (.node { type := "Program" } [.node { type := "ThrowStatement" } []])
      (.unreadable ⟨some "Cannot read properties of null (reading 'message')"⟩)
      ⟨by decide, by decide, by decide⟩ rfl rfl rfl⟩

/-- Counterexample to C3: three programs whose evaluation throws.  In each
run `executeCode` raises and returns no trace; the step list ends in the
`error` step for the first, in a `log` step behind the `error` step for the
second, and holds no `error` step for the third, which throws `null`. -/
theorem executeCode_fault_not_returned :
    (faultingHost.callFunction (generateCodeFromAST "null.length;")
        ((prepare faultingHost {} "[1]").executionContext.get "input")).completion =
        .error (.readable ⟨some "Cannot read properties of null (reading 'length')"⟩) ∧
      (executeCode faultingHost {} "null.length;" "[1]" "sort" "javascript").2 =
        .error ⟨some
          "JavaScript execution failed: Cannot read properties of null (reading 'length')"⟩ ∧
      (executeCode faultingHost {} "null.length;" "[1]" "sort"
        "javascript").1.executionSteps.map (·.type) =
        ["start", "comparison", "loop_start", "error"] ∧
      (executeCode lateFaultHost {} lateFaultSource "[]" "generic" "javascript").2 =
        .error ⟨some
          "JavaScript execution failed: Cannot read properties of null (reading 'length')"⟩ ∧
      (executeCode lateFaultHost {} lateFaultSource "[]" "generic"
        "javascript").1.executionSteps.map (·.type) = ["start", "error", "log"] ∧
      (executeCode nullThrowHost {} "throw null;" "[]" "generic" "javascript").2 =
        .error ⟨some
          "JavaScript execution failed: Cannot read properties of null (reading 'message')"⟩ ∧
      (executeCode nullThrowHost {} "throw null;" "[]" "generic"
        "javascript").1.executionSteps.map (·.type) = ["start"] :=
  ⟨rfl, rfl, rfl, rfl, rfl, rfl, rfl⟩

/-- C4, as the code has it: the kinds of the step list of every run are a
sequence of kinds other than `end` and `error`, then at most one step of kind
`end` or `error`, then steps of kind `log` only, and none of those when there
is no `end` or `error` step.  So a step of kind `end` or `error` occurs at
most once, and what follows it is what the callbacks of the program log
later. -/
theorem executeCode_terminal_once (h : Host) (self : CodeExecutor)
    (code input algorithmType language : String) :
    ∃ (earlier : List String) (terminal : Option String) (later : List String),
      (executeCode h self code input algorithmType language).1.executionSteps.map (·.type) =
          earlier ++ terminal.toList ++ later ∧
        (∀ t ∈ earlier, t ≠ "end" ∧ t ≠ "error") ∧
        (∀ t ∈ terminal, t = "end" ∨ t = "error") ∧
        (∀ t ∈ later, t = "log") ∧
        (terminal = none → later = []) := by
  have hstart : midKind "start" := by decide
  have hcons : ∀ mids : List String, (∀ t ∈ mids, midKind t) →
      ∀ t ∈ "start" :: mids, t ≠ "end" ∧ t ≠ "error" := by
    intro mids hm t ht
    rcases List.mem_cons.1 ht with rfl | hmem
    · exact hstart
    · exact hm t hmem
  rcases executeCode_shape h self code input algorithmType language with
    ⟨_, _, hby⟩ | ⟨_, mids, hm, _, hby⟩ | ⟨mids, lates, hm, hl, _, hby⟩ |
      ⟨_, mids, lates, hm, hl, _, hby⟩
  · have hk := (growsBy_fromPrepared hby).1
    rw [kinds] at hk
    exact ⟨[], none, [], by simpa using hk, by simp, by simp, by simp, fun _ => rfl⟩
  · have hk := (growsBy_fromPrepared hby).1
    rw [kinds] at hk
    exact ⟨"start" :: mids, none, [], by simpa using hk, hcons mids hm, by simp, by simp,
      fun _ => rfl⟩
  · have hk := (growsBy_fromPrepared hby).1
    rw [kinds] at hk
    refine ⟨"start" :: mids, some "end", lates, by simpa using hk, hcons mids hm, ?_, hl, ?_⟩
    · intro t ht
      left
      exact (Option.mem_some_iff.1 ht).symm
    · intro hnone
      cases hnone
  · have hk := (growsBy_fromPrepared hby).1
    rw [kinds] at hk
    refine ⟨"start" :: mids, some "error", lates, by simpa using hk, hcons mids hm, ?_, hl, ?_⟩
    · intro t ht
      right
      exact (Option.mem_some_iff.1 ht).symm
    · intro hnone
      cases hnone

/-- Counterexample to C4: a run on a text the parser rejects leaves the empty
list, and a run with the hint `dp`, whose analysis raises after the `start`
step, leaves that step alone: neither list holds a step of kind `end` or
`error`, and both runs raise.  A run of the program of `lateLogSource` returns
a list in which a step of kind `log` follows the `end` step. -/
theorem executeCode_no_terminal :
    (executeCode demoHost {} "function f(" "x" "sort" "javascript").1.executionSteps.map
        (·.type) = [] ∧
      (executeCode demoHost {} "function f(" "x" "sort" "javascript").2 =
        .error ⟨some "JavaScript execution failed: Unexpected token (1:11)"⟩ ∧
      (executeCode demoHost {} "for(;;) if (a) b" "x" "dp" "javascript").1.executionSteps.map
        (·.type) = ["start"] ∧
      (executeCode demoHost {} "for(;;) if (a) b" "x" "dp" "javascript").2 =
        .error ⟨some "JavaScript execution failed: this.analyzeDPAlgorithm is not a function"⟩ ∧
      (executeCode lateLogHost {} lateLogSource "[]" "generic"
        "javascript").1.executionSteps.map (·.type) =
        ["start", "variable_declaration", "end", "log"] ∧
      (executeCode lateLogHost {} lateLogSource "[]" "generic" "javascript").2 =
        .ok (executeCode lateLogHost {} lateLogSource "[]" "generic"
          "javascript").1.executionSteps :=
  ⟨rfl, rfl, rfl, rfl, rfl, rfl⟩

/-- C5, as the code has it: when the language is not one of the three
simulated ones, so that the source reaches the parser, and the parser rejects
the source with `e`, `executeCode` raises an error with a non-empty message
(the message of `e` behind `JavaScript execution failed: `) and
`executionSteps` is empty afterwards, whatever it held before. -/
theorem executeCode_parse_error (h : Host) (self : CodeExecutor)
    (code input algorithmType language : String) (e : JSError)
    (hlang : language ≠ "python" ∧ language ≠ "java" ∧ language ≠ "c")
    (hparse : h.parse code = .error e) :
    (executeCode h self code input algorithmType language).2 =
        .error ⟨some ("JavaScript execution failed: " ++ e.messageText)⟩ ∧
      "JavaScript execution failed: " ++ e.messageText ≠ "" ∧
      (executeCode h self code input algorithmType language).1.executionSteps = [] := by
  rw [executeCode_eq_javascript h self code input algorithmType language hlang]
  unfold executeJavaScript
  rw [hparse]
  exact ⟨rfl, append_ne_empty _ _ (by decide), rfl⟩

/-- Witness of C5 as amended: the rejected text, run on an executor that still
holds the five steps of an earlier run. -/
theorem executeCode_parse_error_witness :
    (executeCode demoHost {} "for(;;) if (a) b" "x" "sort" "javascript").1.executionSteps.length = 5 ∧
      demoHost.parse "function f(" = .error ⟨some "Unexpected token (1:11)"⟩ ∧
      (executeCode demoHost (executeCode demoHost {} "for(;;) if (a) b" "x" "sort" "javascript").1
        "function f(" "x" "sort" "javascript").1.executionSteps = [] :=
  ⟨rfl, rfl,
    (executeCode_parse_error demoHost
      (executeCode demoHost {} "for(;;) if (a) b" "x" "sort" "javascript").1
      "function f(" "x" "sort" "javascript" ⟨some "Unexpected token (1:11)"⟩
      ⟨by decide, by decide, by decide⟩ rfl).2.2⟩

/-- Counterexample to C5: the parser rejects the text, and with the language
`python` `executeCode` does not fail: it returns two steps. -/
theorem executeCode_rejected_source_python :
    demoHost.parse "function f(" = .error ⟨some "Unexpected token (1:11)"⟩ ∧
      (executeCode demoHost {} "function f(" "x" "sort" "python").2 =
        .ok (executeCode demoHost {} "function f(" "x" "sort" "python").1.executionSteps ∧
      (executeCode demoHost {} "function f(" "x" "sort" "python").1.executionSteps.length = 2 :=
  ⟨rfl, rfl, rfl⟩

/-- C6, as the code has it: for a language other than `javascript`,
either it is `python`, `java` or `c` and `executeCode` returns, whatever the
parser would say, the two steps `start`, `end` of a simulated run, or it is any
other text and the run is the run for `javascript`. -/
theorem executeCode_other_language (h : Host) (self : CodeExecutor)
    (code input algorithmType language : String) (hne : language ≠ "javascript") :
    ((language = "python" ∨ language = "java" ∨ language = "c") ∧
      (executeCode h self code input algorithmType language).2 =
        .ok (executeCode h self code input algorithmType language).1.executionSteps ∧
      (executeCode h self code input algorithmType language).1.executionSteps.map (·.type) =
        ["start", "end"] ∧
      ∀ p : String → Except JSError Ast,
        executeCode { h with parse := p } self code input algorithmType language =
          executeCode h self code input algorithmType language) ∨
    ((language ≠ "python" ∧ language ≠ "java" ∧ language ≠ "c") ∧
      executeCode h self code input algorithmType language =
        executeCode h self code input algorithmType "javascript") := by
  by_cases hp : language = "python"
  · subst hp
    exact Or.inl ⟨Or.inl rfl, rfl, rfl, fun _ => rfl⟩
  by_cases hj : language = "java"
  · subst hj
    exact Or.inl ⟨Or.inr (Or.inl rfl), rfl, rfl, fun _ => rfl⟩
  by_cases hc : language = "c"
  · subst hc
    exact Or.inl ⟨Or.inr (Or.inr rfl), rfl, rfl, fun _ => rfl⟩
  · refine Or.inr ⟨⟨hp, hj, hc⟩, ?_⟩
    rw [executeCode_eq_javascript h self code input algorithmType language ⟨hp, hj, hc⟩,
      executeCode_eq_javascript h self code input algorithmType "javascript"
        ⟨by decide, by decide, by decide⟩]

/-- Witness of C6 as amended: the language `python`. -/
theorem executeCode_other_language_witness :
    "python" ≠ "javascript" ∧
      (executeCode demoHost {} "print(1)" "x" "sort" "python").1.executionSteps.map (·.type) =
        ["start", "end"] :=
  ⟨by decide,
    (executeCode_other_language demoHost {} "print(1)" "x" "sort" "python" (by decide)).elim
      (fun hsim => hsim.2.2.1) (fun hjs => absurd rfl hjs.1.1)⟩

/-- Counterexample to C6: the language `python` does not fail, and the
language `ruby` reaches the parser, whose error is the one raised. -/
theorem executeCode_python_returns :
    (executeCode demoHost {} "print(1)" "x" "sort" "python").2 =
        .ok (executeCode demoHost {} "print(1)" "x" "sort" "python").1.executionSteps ∧
      (executeCode demoHost {} "print(1)" "x" "sort" "python").1.executionSteps.length = 2 ∧
      (executeCode demoHost {} "function f(" "x" "sort" "ruby").2 =
        .error ⟨some "JavaScript execution failed: Unexpected token (1:11)"⟩ :=
  ⟨rfl, rfl, rfl⟩

/-! ## The array visualization -/

theorem inRange_num (len : Nat) (n : Num) :
    inRange len (.num n) = (n.geZero && n.ltLen len) := by
  cases n <;> simp [inRange, Num.geZero, Num.ltLen, Bool.decide_and]

theorem pointerLoopBody_entries (len : Nat) (acc : List Pointer) (entry : String × Value) :
    (pointerLoopBody len acc entry).map (fun p => (p.label, Value.num p.index)) =
      acc.map (fun p => (p.label, Value.num p.index)) ++
        [entry].filter (fun e => inRange len e.2) := by
  obtain ⟨name, value⟩ := entry
  cases value with
  | num n =>
    simp only [pointerLoopBody, Value.asNumber?, List.filter_cons, List.filter_nil, inRange_num]
    by_cases hc : (n.geZero && n.ltLen len) = true
    · simp [hc]
    · simp [hc]
  | _ => simp [pointerLoopBody, Value.asNumber?, inRange]

theorem foldl_pointerLoopBody_entries (len : Nat) (vars : Vars) (acc : List Pointer) :
    (vars.foldl (pointerLoopBody len) acc).map (fun p => (p.label, Value.num p.index)) =
      acc.map (fun p => (p.label, Value.num p.index)) ++
        vars.filter (fun e => inRange len e.2) := by
  induction vars generalizing acc with
  | nil => simp
  | cons entry rest ih =>
    rw [List.foldl_cons, ih, pointerLoopBody_entries, List.append_assoc, ← List.filter_append]
    rfl

theorem pointers_entries (array : List Value) (step : Step) :
    (createArrayVisualization array step).pointers.map (fun p => (p.label, Value.num p.index)) =
      (step.vars.getD []).filter (fun e => inRange array.length e.2) := by
  unfold createArrayVisualization
  cases hv : step.vars with
  | none => simp [Visualization.pointers]
  | some vars =>
    simp only [Visualization.pointers, Option.getD_some]
    rw [foldl_pointerLoopBody_entries]
    simp

/-- C7: every pointer of `createArrayVisualization(array, step)` has an index
`q` with `0 <= q < array.length`. -/
theorem createArrayVisualization_pointer_bounds (array : List Value) (step : Step) (p : Pointer)
    (hp : p ∈ (createArrayVisualization array step).pointers) :
    ∃ q : ℚ, p.index = .fin q ∧ 0 ≤ q ∧ q < (array.length : ℚ) := by
  have hmem : (p.label, Value.num p.index) ∈
      (createArrayVisualization array step).pointers.map (fun p => (p.label, Value.num p.index)) :=
    List.mem_map_of_mem _ hp
  rw [pointers_entries] at hmem
  have hin : inRange array.length (Value.num p.index) = true := (List.mem_filter.1 hmem).2
  cases hidx : p.index with
  | fin q =>
    rw [hidx] at hin
    simp only [inRange, decide_eq_true_eq] at hin
    exact ⟨q, rfl, hin.1, hin.2⟩
  | nan => rw [hidx] at hin; simp [inRange] at hin
  | posInf => rw [hidx] at hin; simp [inRange] at hin
  | negInf => rw [hidx] at hin; simp [inRange] at hin

/-- Witness of C7: the binding `i = 1` over an array of three elements. -/
theorem createArrayVisualization_pointer_bounds_witness :
    (⟨"i", .fin 1, "#ff4757"⟩ : Pointer) ∈
        (createArrayVisualization [.num (.fin 5), .num (.fin 2), .num (.fin 9)]
          { type := "for_loop", vars := some [("i", .num (.fin 1))] }).pointers ∧
      ∃ q : ℚ, (⟨"i", .fin 1, "#ff4757"⟩ : Pointer).index = .fin q ∧ 0 ≤ q ∧
        q < (([.num (.fin 5), .num (.fin 2), .num (.fin 9)] : List Value).length : ℚ) :=
  have hmem : (⟨"i", .fin 1, "#ff4757"⟩ : Pointer) ∈
      (createArrayVisualization [.num (.fin 5), .num (.fin 2), .num (.fin 9)]
        { type := "for_loop", vars := some [("i", .num (.fin 1))] }).pointers := by
    simp [createArrayVisualization, Visualization.pointers, pointerLoopBody, Value.asNumber?,
      Num.geZero, Num.ltLen]
  ⟨hmem, createArrayVisualization_pointer_bounds _ _ _ hmem⟩

/-- C8, as the code has it: the pointers of `createArrayVisualization` are, in
binding order, exactly the bindings of `step.variables` whose value is a
number `v` with `0 <= v < array.length`, integer or not, each with the binding
name as label and the value as index. -/
theorem createArrayVisualization_pointers (array : List Value) (step : Step) :
    (createArrayVisualization array step).pointers.map (fun p => (p.label, Value.num p.index)) =
      (step.vars.getD []).filter (fun e => inRange array.length e.2) :=
  pointers_entries array step

/-- Counterexample to C8: the binding `mid = 1.5`, which is not an integer,
yields a pointer over an array of three elements. -/
theorem createArrayVisualization_fractional_pointer :
    (createArrayVisualization [.num (.fin 5), .num (.fin 2), .num (.fin 9)]
        { type := "for_loop", vars := some [("mid", .num (.fin (3 / 2)))] }).pointers.map
          (fun p => (p.label, p.index)) = [("mid", .fin (3 / 2))] ∧
      ¬ ∃ z : ℤ, ((3 : ℚ) / 2) = (z : ℚ) := by
  constructor
  · have h0 : (0 : ℚ) ≤ 3 / 2 := by norm_num
    have h3 : (3 : ℚ) / 2 < 3 := by norm_num
    simp [createArrayVisualization, Visualization.pointers, pointerLoopBody, Value.asNumber?,
      Num.geZero, Num.ltLen, h0, h3]
  · rintro ⟨z, hz⟩
    have h2 : (3 : ℚ) = 2 * (z : ℚ) := by linarith
    have h3 : (3 : ℤ) = 2 * z := by exact_mod_cast h2
    omega

/-- C9, as the code has it: for a step of one of the six loop and comparison
kinds whose variables bind the name `arr` to an array, of any elements,
`createVisualizationForStep` returns an array visualization of that array. -/
theorem createVisualizationForStep_arr (step : Step) (vars : Vars) (items : List Value)
    (hkind : step.type ∈
      ["loop_start", "for_loop", "while_loop", "comparison", "search_loop", "found_check"])
    (hvars : step.vars = some vars) (harr : vars.get "arr" = .arr items) :
    ∃ pointers highlights, createVisualizationForStep step = .array items pointers highlights := by
  have harray : arrayOrDefault step (.variablesView (step.vars.getD [])) =
      createArrayVisualization items step := by
    unfold arrayOrDefault
    rw [hvars]
    simp only [harr, Value.asArray?]
  have hshape : ∃ pointers highlights,
      createArrayVisualization items step = .array items pointers highlights :=
    ⟨_, _, rfl⟩
  simp only [List.mem_cons, List.mem_singleton, List.mem_nil_iff, or_false] at hkind
  unfold createVisualizationForStep
  have hgoal : ∃ pointers highlights,
      arrayOrDefault step (.variablesView (step.vars.getD [])) =
        .array items pointers highlights := by
    rw [harray]
    exact hshape
  rcases hkind with hk | hk | hk | hk | hk | hk <;> rw [hk] <;> exact hgoal

/-- Witness of C9 as amended: a `comparison` step with `arr = [5, 2]`. -/
theorem createVisualizationForStep_arr_witness :
    ∃ pointers highlights,
      createVisualizationForStep
        { type := "comparison", vars := some [("arr", .arr [.num (.fin 5), .num (.fin 2)])] } =
        .array [.num (.fin 5), .num (.fin 2)] pointers highlights :=
  createVisualizationForStep_arr _ [("arr", .arr [.num (.fin 5), .num (.fin 2)])] _
    (by decide) rfl rfl

/-- Counterexample to C9: a `loop_start` step whose only binding is the array
`nums` gets the variables visualization, not an array one. -/
theorem createVisualizationForStep_other_name :
    createVisualizationForStep
        { type := "loop_start", vars := some [("nums", .arr [.num (.fin 5), .num (.fin 2)])] } =
      .variablesView [("nums", .arr [.num (.fin 5), .num (.fin 2)])] := by
  rfl

/-- C10, at the failing input: on a `comparison` step with `i = -1` and `j = 0`
over an array of three elements, the highlights are `-1` and `0`, and `-1` is
not an index of the array. -/
theorem createArrayVisualization_negative_highlight :
    (createArrayVisualization [.num (.fin 5), .num (.fin 2), .num (.fin 9)]
        { type := "comparison",
          vars := some [("arr", .arr [.num (.fin 5), .num (.fin 2), .num (.fin 9)]),
            ("i", .num (.fin (-1))), ("j", .num (.fin 0))] }).arrayHighlights =
        [.fin (-1), .fin 0] ∧
      ¬ (0 : ℚ) ≤ -1 := by
  constructor
  · have h1 : (-1 : ℚ) < 3 := by norm_num
    simp [createArrayVisualization, Visualization.arrayHighlights, highlightOf, Value.asNumber?,
      Num.ltLen, Vars.get, List.lookup, h1]
  · norm_num

/-! ## The recursion, graph and variables visualizations -/

theorem createVisualizationForStep_recursive (step : Step) (hkind : step.type = "recursive_call") :
    createVisualizationForStep step = createRecursionVisualization step := by
  unfold createVisualizationForStep
  rw [hkind]
  rfl

theorem createVisualizationForStep_graph (step : Step) (hkind : step.type = "graph_visit") :
    createVisualizationForStep step = createGraphVisualization step := by
  unfold createVisualizationForStep
  rw [hkind]
  rfl

/-- C11: for a step of kind `recursive_call`, `createVisualizationForStep`
returns a recursion visualization whose call stack is not empty and in which
exactly one frame has `isCurrent` set, the last one. -/
theorem createVisualizationForStep_recursion_current (step : Step)
    (hkind : step.type = "recursive_call") :
    ∃ callStack, createVisualizationForStep step = .recursion callStack ∧ callStack ≠ [] ∧
      (callStack.filter (·.isCurrent)).length = 1 ∧
      callStack.getLast?.map (·.isCurrent) = some true ∧
      callStack.dropLast.all (fun frame => !frame.isCurrent) = true := by
  rw [createVisualizationForStep_recursive step hkind]
  exact ⟨_, rfl, by simp, rfl, rfl, rfl⟩

/-- Witness of C11: a `recursive_call` step with the binding `n = 5`. -/
theorem createVisualizationForStep_recursion_current_witness :
    ∃ callStack,
      createVisualizationForStep
          { type := "recursive_call", vars := some [("n", .num (.fin 5))] } =
        .recursion callStack ∧ callStack ≠ [] ∧
      (callStack.filter (·.isCurrent)).length = 1 ∧
      callStack.getLast?.map (·.isCurrent) = some true ∧
      callStack.dropLast.all (fun frame => !frame.isCurrent) = true :=
  createVisualizationForStep_recursion_current
    { type := "recursive_call", vars := some [("n", .num (.fin 5))] } rfl

/-- C13, as the code has it: for every step of kind `graph_visit`,
whatever its variables, `createVisualizationForStep` returns the same graph
visualization: the nodes `A`, `B`, `C`, the edges from `A` to `B` and from `B`
to `C`, and the highlight `B`. -/
theorem createVisualizationForStep_graph_fixed (step : Step)
    (hkind : step.type = "graph_visit") :
    createVisualizationForStep step =
      .graph [⟨"A", "A", 1, 1⟩, ⟨"B", "B", 2, 2⟩, ⟨"C", "C", 3, 1⟩]
        [⟨"A", "B", true⟩, ⟨"B", "C", true⟩] ["B"] := by
  rw [createVisualizationForStep_graph step hkind]
  rfl

/-- Witness of C13 as amended: a `graph_visit` step that binds a graph. -/
theorem createVisualizationForStep_graph_fixed_witness :
    createVisualizationForStep
        { type := "graph_visit",
          vars := some [("graph", .obj [("X", .arr [.str "Y"]), ("Y", .arr [])])] } =
      .graph [⟨"A", "A", 1, 1⟩, ⟨"B", "B", 2, 2⟩, ⟨"C", "C", 3, 1⟩]
        [⟨"A", "B", true⟩, ⟨"B", "C", true⟩] ["B"] :=
  createVisualizationForStep_graph_fixed _ rfl

/-- Counterexample to C13: a `graph_visit` step without variables gets a graph
of three nodes and two edges. -/
theorem createVisualizationForStep_graph_not_empty :
    createVisualizationForStep { type := "graph_visit" } =
        .graph [⟨"A", "A", 1, 1⟩, ⟨"B", "B", 2, 2⟩, ⟨"C", "C", 3, 1⟩]
          [⟨"A", "B", true⟩, ⟨"B", "C", true⟩] ["B"] ∧
      ([⟨"A", "A", 1, 1⟩, ⟨"B", "B", 2, 2⟩, ⟨"C", "C", 3, 1⟩] : List GraphNode) ≠ [] :=
  ⟨rfl, by simp⟩

theorem get_asArray_none (vars : Vars) (name : String)
    (hnone : ∀ e ∈ vars, e.2.asArray? = none) : (vars.get name).asArray? = none := by
  unfold Vars.get
  induction vars with
  | nil => rfl
  | cons e rest ih =>
    obtain ⟨k, v⟩ := e
    rw [List.lookup_cons]
    cases hkv : (name == k) with
    | true => exact hnone (k, v) (List.mem_cons_self _ _)
    | false => exact ih (fun e he => hnone e (List.mem_cons_of_mem _ he))

theorem arrayOrDefault_no_array (step : Step) (visualization : Visualization)
    (hnone : ∀ e ∈ step.vars.getD [], e.2.asArray? = none) :
    arrayOrDefault step visualization = visualization := by
  unfold arrayOrDefault
  cases hv : step.vars with
  | none => rfl
  | some vars =>
    rw [hv] at hnone
    simp only [get_asArray_none vars "arr" hnone]

/-- C14: for a step that falls under none of the array, recursion and graph
rules (a kind other than `recursive_call` and `graph_visit`, and, when it is
one of the six loop and comparison kinds, no binding that is an array),
`createVisualizationForStep` returns the variables visualization of
`step.variables`, and of the empty mapping when the step has no variables. -/
theorem createVisualizationForStep_variables (step : Step)
    (hrec : step.type ≠ "recursive_call") (hgraph : step.type ≠ "graph_visit")
    (harr : step.type ∈ arrayKinds → ∀ e ∈ step.vars.getD [], e.2.asArray? = none) :
    createVisualizationForStep step = .variablesView (step.vars.getD []) := by
  unfold createVisualizationForStep
  dsimp only
  split
  · rfl
  · rfl
  · exact arrayOrDefault_no_array step _ (harr (by simp [arrayKinds, *]))
  · exact arrayOrDefault_no_array step _ (harr (by simp [arrayKinds, *]))
  · exact arrayOrDefault_no_array step _ (harr (by simp [arrayKinds, *]))
  · exact arrayOrDefault_no_array step _ (harr (by simp [arrayKinds, *]))
  · exact arrayOrDefault_no_array step _ (harr (by simp [arrayKinds, *]))
  · exact arrayOrDefault_no_array step _ (harr (by simp [arrayKinds, *]))
  · exact absurd (by assumption) hrec
  · exact absurd (by assumption) hgraph
  · rfl

/-- Witness of C14: a `while_loop` step whose bindings are two numbers. -/
theorem createVisualizationForStep_variables_witness :
    createVisualizationForStep
        { type := "while_loop", vars := some [("left", .num (.fin 0)), ("right", .num (.fin 5))] } =
      .variablesView [("left", .num (.fin 0)), ("right", .num (.fin 5))] :=
  createVisualizationForStep_variables
    { type := "while_loop", vars := some [("left", .num (.fin 0)), ("right", .num (.fin 5))] }
    (by decide) (by decide) (fun _ e he => by
      simp only [Option.getD_some, List.mem_cons, List.mem_singleton, List.mem_nil_iff,
        or_false] at he
      rcases he with rfl | rfl <;> rfl)

/-- C15: `analyzeComplexity` is the table keyed by the kind: `O(n)`, `O(1)`
for `for_loop` and `while_loop`, `O(2^n)`, `O(n)` for `recursive_call`, `O(1)`,
`O(1)` for `comparison`, and `O(n)`, `O(1)` for every other kind. -/
theorem analyzeComplexity_table (step : Step) :
    analyzeComplexity step = complexityTable step.type := by
  unfold analyzeComplexity complexityTable
  split <;> simp_all

/-- C16: two steps with the same kind and the same variables get equal
visualizations, whatever their other fields. -/
theorem createVisualizationForStep_kind_vars (step₁ step₂ : Step)
    (hkind : step₁.type = step₂.type) (hvars : step₁.vars = step₂.vars) :
    createVisualizationForStep step₁ = createVisualizationForStep step₂ := by
  obtain ⟨t₁, e₁, l₁, v₁, m₁, r₁, x₁⟩ := step₁
  obtain ⟨t₂, e₂, l₂, v₂, m₂, r₂, x₂⟩ := step₂
  dsimp only at hkind hvars
  subst hkind hvars
  rfl

/-- Witness of C16: a `comparison` step and a step that differs from it in
every field but the kind and the variables. -/
theorem createVisualizationForStep_kind_vars_witness :
    createVisualizationForStep
        { type := "comparison", vars := some [("arr", .arr [.num (.fin 5)]), ("i", .num (.fin 0))] } =
      createVisualizationForStep
        { type := "comparison", vars := some [("arr", .arr [.num (.fin 5)]), ("i", .num (.fin 0))],
          explanation := some "Comparing elements", lineNumber := some 4,
          message := some "m", result := some (.bool true), error := some "e" } :=
  createVisualizationForStep_kind_vars _ _ rfl rfl

/-! ## Properties kept by every appended step -/

theorem sortVisitor_keeps (h : Host) (P : CodeExecutor → Prop)
    (hadd : ∀ s step, P s → P (addExecutionStep h s step)) (s s' : CodeExecutor) (node : Node)
    (hv : sortVisitor h s node = .ok s') (hs : P s) : P s' := by
  unfold sortVisitor at hv
  split at hv <;> cases hv
  · exact hadd s _ hs
  · exact hadd s _ hs
  · exact hs

theorem searchVisitor_keeps (h : Host) (P : CodeExecutor → Prop)
    (hadd : ∀ s step, P s → P (addExecutionStep h s step)) (s s' : CodeExecutor) (node : Node)
    (hv : searchVisitor h s node = .ok s') (hs : P s) : P s' := by
  unfold searchVisitor at hv
  split at hv <;> cases hv
  · exact hadd s _ hs
  · exact hadd s _ hs
  · exact hs

theorem graphVisitor_keeps (h : Host) (P : CodeExecutor → Prop)
    (hadd : ∀ s step, P s → P (addExecutionStep h s step)) (s s' : CodeExecutor) (node : Node)
    (hv : graphVisitor h s node = .ok s') (hs : P s) : P s' := by
  unfold graphVisitor at hv
  split at hv
  · split at hv
    · split at hv <;> cases hv
      · exact hadd s _ hs
      · exact hs
    · cases hv
      exact hs
  · cases hv
    exact hs

theorem recursiveVisitor_keeps (h : Host) (ast : Ast) (P : CodeExecutor → Prop)
    (hadd : ∀ s step, P s → P (addExecutionStep h s step)) (s s' : CodeExecutor) (node : Node)
    (hv : recursiveVisitor h ast s node = .ok s') (hs : P s) : P s' := by
  unfold recursiveVisitor at hv
  split at hv
  · split at hv
    · split at hv <;> cases hv
      · exact hadd s _ hs
      · exact hs
    · cases hv
      exact hs
  · cases hv
    exact hs

theorem genericVisitor_keeps (h : Host) (P : CodeExecutor → Prop)
    (hadd : ∀ s step, P s → P (addExecutionStep h s step)) (s s' : CodeExecutor) (node : Node)
    (hv : genericVisitor h s node = .ok s') (hs : P s) : P s' := by
  unfold genericVisitor at hv
  split at hv
  · split at hv <;> cases hv
    exact hadd s _ hs
  all_goals cases hv
  · exact hadd s _ hs
  · exact hadd s _ hs
  · exact hadd s _ hs
  · exact hadd s _ hs
  · exact hadd s _ hs
  · exact hs

theorem runVisitors_keeps (P : CodeExecutor → Prop)
    (visit : CodeExecutor → Node → Except JSError CodeExecutor)
    (hvisit : ∀ s s' node, visit s node = .ok s' → P s → P s')
    (fault : Option JSError) (nodes : List Node) (s : CodeExecutor) (hs : P s) :
    P (runVisitors visit fault nodes s).1 := by
  induction nodes generalizing s with
  | nil =>
    unfold runVisitors
    cases fault <;> exact hs
  | cons node rest ih =>
    unfold runVisitors
    cases hv : visit s node with
    | ok s' => exact ih s' (hvisit s s' node hv hs)
    | error e => exact hs

theorem runLogs_keeps (h : Host) (P : CodeExecutor → Prop)
    (hadd : ∀ s step, P s → P (addExecutionStep h s step))
    (logs : List (List String)) (s : CodeExecutor) (hs : P s) : P (runLogs h s logs) := by
  induction logs generalizing s with
  | nil => exact hs
  | cons args rest ih =>
    unfold runLogs
    rw [List.foldl_cons]
    exact ih _ (hadd s _ hs)

theorem callGenerated_keeps (h : Host) (P : CodeExecutor → Prop)
    (hadd : ∀ s step, P s → P (addExecutionStep h s step)) (s : CodeExecutor) (hs : P s) :
    P (callGenerated h s).1 := by
  obtain ⟨logs, hl⟩ := callGenerated_fst h s
  rw [hl]
  exact runLogs_keeps h P hadd logs s hs

theorem executeAST_keeps (h : Host) (P : CodeExecutor → Prop)
    (hadd : ∀ s step, P s → P (addExecutionStep h s step)) (s : CodeExecutor) (ast : Ast)
    (hs : P s) : P (executeAST h s ast).1 := by
  have hc := callGenerated_keeps h P hadd s hs
  unfold executeAST
  rcases hcg : callGenerated h s with ⟨s1, (e | e) | v⟩
  · rw [hcg] at hc
    exact hadd s1 _ hc
  · rw [hcg] at hc
    exact hc
  · rw [hcg] at hc
    exact hadd s1 _ hc

theorem analyzeAST_keeps (h : Host) (P : CodeExecutor → Prop)
    (hadd : ∀ s step, P s → P (addExecutionStep h s step)) (s : CodeExecutor) (ast : Ast)
    (algorithmType : String) (hs : P s) : P (analyzeAST h s ast algorithmType).1 := by
  unfold analyzeAST
  dsimp only
  split
  · exact runVisitors_keeps P _ (sortVisitor_keeps h P hadd) _ _ _ (hadd s _ hs)
  · exact runVisitors_keeps P _ (searchVisitor_keeps h P hadd) _ _ _ (hadd s _ hs)
  · exact runVisitors_keeps P _ (graphVisitor_keeps h P hadd) _ _ _ (hadd s _ hs)
  · exact hadd s _ hs
  · exact runVisitors_keeps P _ (recursiveVisitor_keeps h _ P hadd) _ _ _ (hadd s _ hs)
  · exact runVisitors_keeps P _ (genericVisitor_keeps h P hadd) _ _ _ (hadd s _ hs)

theorem executeJavaScript_keeps (h : Host) (P : CodeExecutor → Prop)
    (hadd : ∀ s step, P s → P (addExecutionStep h s step)) (s : CodeExecutor)
    (code algorithmType : String) (hs : P s) :
    P (executeJavaScript h s code algorithmType).1 := by
  unfold executeJavaScript
  cases hp : h.parse code with
  | error e => exact hs
  | ok ast =>
    dsimp only
    have ha := analyzeAST_keeps h P hadd s ast algorithmType hs
    rcases hx : analyzeAST h s ast algorithmType with ⟨s1, e | u⟩
    · rw [hx] at ha
      exact ha
    · rw [hx] at ha
      dsimp only
      have he := executeAST_keeps h P hadd s1 ast ha
      rcases hy : executeAST h s1 ast with ⟨s2, e | v⟩
      · rw [hy] at he
        exact runLogs_keeps h P hadd _ s2 he
      · rw [hy] at he
        exact runLogs_keeps h P hadd _ s2 he

theorem simulated_keeps (h : Host) (P : CodeExecutor → Prop)
    (hadd : ∀ s step, P s → P (addExecutionStep h s step)) (s : CodeExecutor) (name : String)
    (hs : P s) : P (simulated h s name).1 :=
  hadd _ _ (hadd s _ hs)

/-- A property of the executor that holds after `prepare` and that every
`addExecutionStep` keeps holds after the run. -/
theorem executeCode_keeps (h : Host) (P : CodeExecutor → Prop)
    (hadd : ∀ s step, P s → P (addExecutionStep h s step)) (s : CodeExecutor)
    (code input algorithmType language : String) (hs : P (prepare h s input)) :
    P (executeCode h s code input algorithmType language).1 := by
  unfold executeCode
  dsimp only
  split
  · exact executeJavaScript_keeps h P hadd _ code algorithmType hs
  · exact simulated_keeps h P hadd _ "Python" hs
  · exact simulated_keeps h P hadd _ "Java" hs
  · exact simulated_keeps h P hadd _ "C-style" hs
  · exact executeJavaScript_keeps h P hadd _ code algorithmType hs

theorem decorated_add (h : Host) (s : CodeExecutor) (step : Step) (hs : Decorated s) :
    Decorated (addExecutionStep h s step) := by
  intro st hst
  simp only [addExecutionStep, List.mem_append, List.mem_singleton] at hst
  rcases hst with hold | rfl
  · exact hs st hold
  · exact ⟨rfl, rfl⟩

theorem executeCode_decorated (h : Host) (s : CodeExecutor)
    (code input algorithmType language : String) :
    Decorated (executeCode h s code input algorithmType language).1 :=
  executeCode_keeps h Decorated (decorated_add h) s code input algorithmType language
    (fun st hst => by simp [prepare] at hst)

/-- C12, as the code has it: after every run, the call stack in the
visualization of every step of kind `recursive_call` is the single frame of
`exampleFunction` with the variables of the step as parameters, marked
current, however many calls are active; so the largest call stack length among
the `recursive_call` steps of a trace is 1, for the factorial program on input
5 as for any other. -/
theorem executeCode_callStack_single (h : Host) (self : CodeExecutor)
    (code input algorithmType language : String) (st : ExecutionStep)
    (hmem : st ∈ (executeCode h self code input algorithmType language).1.executionSteps)
    (hkind : st.type = "recursive_call") :
    st.visualization.callStack =
        [{ function := "exampleFunction", parameters := st.vars.getD [], isCurrent := true }] ∧
      st.visualization.callStack.length = 1 := by
  have hdec := (executeCode_decorated h self code input algorithmType language st hmem).1
  rw [hdec, createVisualizationForStep_recursive st.toStep hkind]
  exact ⟨rfl, rfl⟩

/-- Witness of C12 as amended: the second step of the factorial run. -/
theorem executeCode_callStack_single_witness :
    ((executeCode treeHost {} factorialSource "5" "recursion" "javascript").1.executionSteps.get
        ⟨1, by decide⟩).type = "recursive_call" ∧
      ((executeCode treeHost {} factorialSource "5" "recursion" "javascript").1.executionSteps.get
        ⟨1, by decide⟩).visualization.callStack.length = 1 :=
  ⟨rfl,
    (executeCode_callStack_single treeHost {} factorialSource "5" "recursion" "javascript"
      ((executeCode treeHost {} factorialSource "5" "recursion" "javascript").1.executionSteps.get
        ⟨1, by decide⟩)
      (List.get_mem _ _ _) rfl).2⟩

/-- Counterexample to C12: the run of the factorial program on input 5 has two
`recursive_call` steps, one for each call of `factorial` in the text, and the
call stack of each has one frame; the run ends with the result 120. -/
theorem executeCode_factorial_callStacks :
    ((executeCode treeHost {} factorialSource "5" "recursion" "javascript").1.executionSteps.filter
        (fun st => st.type = "recursive_call")).map
          (fun st => st.visualization.callStack.length) = [1, 1] ∧
      (executeCode treeHost {} factorialSource "5" "recursion" "javascript").1.executionSteps.map
        (·.type) = ["start", "recursive_call", "recursive_call", "end"] ∧
      (executeCode treeHost {} factorialSource "5" "recursion"
        "javascript").1.executionSteps.getLast?.bind (·.result) = some (.num (.fin 120)) :=
  ⟨rfl, rfl, rfl⟩

/-! ## The input coercion -/

/-- C17, as the code has it: the coercion is a total function of the raw
text, and a text that `JSON.parse` rejects, that looks neither like an array
nor like an object, and whose trimmed form is not numeric, not `true` or
`false` and not quoted, is kept as its trimmed form. -/
theorem parseInput_fallback (h : Host) (input : String)
    (hjson : h.jsonParse input = none)
    (harray : (startsWith (trim input) "[" && endsWith (trim input) "]") = false)
    (hobject : (startsWith (trim input) "\x7b" && endsWith (trim input) "\x7d") = false)
    (hnumber : h.toNumber (trim input) = .nan)
    (hbool : trim input ≠ "true" ∧ trim input ≠ "false")
    (hquote : quotedBy "\"" (trim input) = false ∧ quotedBy "'" (trim input) = false) :
    parseInput h input = .str (trim input) := by
  unfold parseInput
  rw [hjson]
  simp only [harray, hobject, Bool.false_eq_true, if_false]
  unfold safeParsePrimitive notNaN
  simp only [hnumber, hbool.1, hbool.2, hquote.1, hquote.2, Bool.false_eq_true, if_false,
    Bool.or_self]

/-- Witness of C17 as amended: the text ` hello ` between two blanks. -/
theorem parseInput_fallback_witness : parseInput demoHost " hello " = .str (trim " hello ") :=
  parseInput_fallback demoHost " hello " rfl rfl rfl rfl ⟨by decide, by decide⟩ ⟨rfl, rfl⟩

/-- Counterexample to C17: the text ` hello ` is not read as a literal, and
the value is the text `hello` without the blanks, not the raw text. -/
theorem parseInput_trims :
    parseInput demoHost " hello " = .str "hello" ∧ (" hello " : String) ≠ "hello" :=
  ⟨rfl, by decide⟩

/-- C18, at the failing input: on the text `[1, 2,]`, whose third token is
empty, `safeParseArray` returns the numbers 1 and 2 and then `NaN`, under
conversions that read the empty text as they do in the language (`isNaN` takes
it for the number 0, `parseFloat` returns `NaN`). -/
theorem safeParseArray_empty_token :
    treeHost.toNumber "" = .fin 0 ∧ treeHost.parseFloat "" = .nan ∧
      safeParseArray treeHost "[1, 2,]" = [.num (.fin 1), .num (.fin 2), .num .nan] :=
  ⟨rfl, rfl, rfl⟩

theorem trim_wrapped (a b : Char) (cs : List Char) (ha : isWhiteSpace a = false)
    (hb : isWhiteSpace b = false) : trim ⟨a :: (cs ++ [b])⟩ = ⟨a :: (cs ++ [b])⟩ := by
  unfold trim
  have h1 : (a :: (cs ++ [b])).dropWhile isWhiteSpace = a :: (cs ++ [b]) := by
    simp [List.dropWhile, ha]
  have h2 : (a :: (cs ++ [b])).reverse = b :: (cs.reverse ++ [a]) := by simp
  have h3 : (b :: (cs.reverse ++ [a])).dropWhile isWhiteSpace = b :: (cs.reverse ++ [a]) := by
    simp [List.dropWhile, hb]
  simp only [h1, h2, h3]
  rw [← h2, List.reverse_reverse]

theorem sliceInner_wrapped (a b : Char) (cs : List Char) :
    sliceInner ⟨a :: (cs ++ [b])⟩ = ⟨cs⟩ := by
  unfold sliceInner
  simp [List.dropLast_concat]

theorem splitChars_absent (sep : Char) (cs : List Char) (hsep : sep ∉ cs) :
    splitChars sep cs = [cs] := by
  induction cs with
  | nil => rfl
  | cons c rest ih =>
    have hc : c ≠ sep := fun hEq => hsep (hEq ▸ List.mem_cons_self _ _)
    have hrest : sep ∉ rest := fun hm => hsep (List.mem_cons_of_mem _ hm)
    simp [splitChars, hc, ih hrest]

theorem splitChars_once (sep : Char) (ks vs : List Char) (hk : sep ∉ ks) (hv : sep ∉ vs) :
    splitChars sep (ks ++ sep :: vs) = [ks, vs] := by
  induction ks with
  | nil => simp [splitChars, splitChars_absent sep vs hv]
  | cons c rest ih =>
    have hc : c ≠ sep := fun hEq => hk (hEq ▸ List.mem_cons_self _ _)
    have hrest : sep ∉ rest := fun hm => hk (List.mem_cons_of_mem _ hm)
    simp [splitChars, hc, ih hrest]

theorem coerceItem_eq_primitive (h : Host) (v : String) :
    coerceItem h v = safeParsePrimitive h v := by
  unfold coerceItem safeParsePrimitive
  dsimp only
  split_ifs <;> simp_all

theorem set_empty (key : String) (v : Value) (hkey : key ≠ "__proto__") :
    Vars.set [] key v = [(key, v)] := by
  unfold Vars.set
  rw [if_neg hkey]
  cases arrayIndex? key <;> simp [insertIndexKey]

theorem parsePair_single (h : Host) (k v : String) (hk : ':' ∉ k.data) (hv : ':' ∉ v.data)
    (hne : trim k ≠ "") (hproto : trim k ≠ "__proto__") :
    parsePair h [] ⟨k.data ++ ':' :: v.data⟩ = [(trim k, safeParsePrimitive h v)] := by
  unfold parsePair split
  rw [splitChars_once ':' k.data v.data hk hv]
  simp only [List.map_cons, List.map_nil]
  rw [if_pos hne]
  unfold safeParsePrimitive
  dsimp only
  split_ifs <;> simp_all [set_empty]

theorem safeParseArray_single (h : Host) (v : String) (hv : ',' ∉ v.data) :
    safeParseArray h ("[" ++ v ++ "]") = [safeParsePrimitive h v] := by
  have hdata : ("[" ++ v ++ "]" : String) = ⟨'[' :: (v.data ++ [']'])⟩ := by
    apply String.ext
    simp [String.data_append]
  unfold safeParseArray split
  rw [hdata, trim_wrapped '[' ']' v.data (by decide) (by decide), sliceInner_wrapped]
  simp only [splitChars_absent ',' v.data hv, List.map_cons, List.map_nil]
  rw [coerceItem_eq_primitive]

theorem safeParseObject_single (h : Host) (k v : String)
    (hk : ',' ∉ k.data ∧ ':' ∉ k.data) (hv : ',' ∉ v.data ∧ ':' ∉ v.data)
    (hne : trim k ≠ "") (hproto : trim k ≠ "__proto__") :
    safeParseObject h ("\x7b" ++ k ++ ":" ++ v ++ "\x7d") =
      [(trim k, safeParsePrimitive h v)] := by
  have hdata : ("\x7b" ++ k ++ ":" ++ v ++ "\x7d" : String) =
      ⟨'\x7b' :: ((k.data ++ ':' :: v.data) ++ ['\x7d'])⟩ := by
    apply String.ext
    simp [String.data_append]
  have hcomma : ',' ∉ k.data ++ ':' :: v.data := by
    intro hm
    rcases List.mem_append.1 hm with hm | hm
    · exact hk.1 hm
    · rcases List.mem_cons.1 hm with hm | hm
      · exact absurd hm (by decide)
      · exact hv.1 hm
  unfold safeParseObject split
  rw [hdata, trim_wrapped '\x7b' '\x7d' _ (by decide) (by decide), sliceInner_wrapped]
  simp only [splitChars_absent ',' _ hcomma, List.map_cons, List.map_nil, List.foldl_cons,
    List.foldl_nil]
  exact parsePair_single h k v hk.2 hv.2 hne hproto

/-- C19, as the code has it: for a key `k` whose trimmed form is not empty and
is not `__proto__`, and a value token `v`, neither of them holding a comma or a
colon, the value `safeParseObject` stores under `k` for the text of `k`, a
colon and `v` between braces is the single element `safeParseArray` returns
for `v` between brackets, and the value `safeParsePrimitive` returns for `v`. -/
theorem coercions_agree (h : Host) (k v : String)
    (hk : ',' ∉ k.data ∧ ':' ∉ k.data) (hv : ',' ∉ v.data ∧ ':' ∉ v.data)
    (hne : trim k ≠ "") (hproto : trim k ≠ "__proto__") :
    safeParseObject h ("\x7b" ++ k ++ ":" ++ v ++ "\x7d") =
        [(trim k, safeParsePrimitive h v)] ∧
      (safeParseObject h ("\x7b" ++ k ++ ":" ++ v ++ "\x7d")).get (trim k) =
        safeParsePrimitive h v ∧
      safeParseArray h ("[" ++ v ++ "]") = [safeParsePrimitive h v] := by
  have hobj := safeParseObject_single h k v hk hv hne hproto
  refine ⟨hobj, ?_, safeParseArray_single h v hv.1⟩
  rw [hobj]
  simp [Vars.get, List.lookup]

/-- Witness of C19 as amended: the key `k` and the quoted token `'ab'`. -/
theorem coercions_agree_witness :
    safeParseObject demoHost ("\x7b" ++ "k" ++ ":" ++ " 'ab'" ++ "\x7d") =
        [(trim "k", safeParsePrimitive demoHost " 'ab'")] ∧
      (safeParseObject demoHost ("\x7b" ++ "k" ++ ":" ++ " 'ab'" ++ "\x7d")).get (trim "k") =
        safeParsePrimitive demoHost " 'ab'" ∧
      safeParseArray demoHost ("[" ++ " 'ab'" ++ "]") = [safeParsePrimitive demoHost " 'ab'"] :=
  coercions_agree demoHost "k" " 'ab'" ⟨by decide, by decide⟩ ⟨by decide, by decide⟩
    (by decide) (by decide)

/-- Counterexample to C19: for the quoted token `'a:b'` the object coercion
splits at the colon and stores the text `'a` under `k`, while the array and the
primitive coercions return the text `a:b`. -/
theorem coercions_disagree_on_colon :
    (safeParseObject demoHost "\x7bk: 'a:b'\x7d").get "k" = .str "'a" ∧
      safeParseArray demoHost "['a:b']" = [.str "a:b"] ∧
      safeParsePrimitive demoHost "'a:b'" = .str "a:b" ∧ ("'a" : String) ≠ "a:b" :=
  ⟨rfl, rfl, rfl, by decide⟩

/-! ## The recursion test -/

/-- C20, at the failing inputs: with a walker that reports the nodes children
first, `isRecursiveCall` answers yes for a function that does not call itself
and is called once after its declaration, and no for a function that calls
itself and is called from nowhere else. -/
theorem isRecursiveCall_not_body_test :
    isRecursiveCall treeHost (some "f") calledOnceAst = .ok true ∧
      callsItselfInBody "f" calledOnceAst = false ∧
      isRecursiveCall treeHost (some "f") selfCallingAst = .ok false ∧
      callsItselfInBody "f" selfCallingAst = true :=
  ⟨rfl, rfl, rfl, rfl⟩

/-! ## The analysis -/

/-- C27, at the failing hint: for every tree, `analyzeAST` with the hint `dp`
appends the `start` step and then raises, the method `analyzeDPAlgorithm`
being undefined. -/
theorem analyzeAST_dp_raises (h : Host) (s : CodeExecutor) (ast : Ast) :
    (analyzeAST h s ast "dp").2 =
        .error ⟨some "this.analyzeDPAlgorithm is not a function"⟩ ∧
      kinds (analyzeAST h s ast "dp").1 = kinds s ++ ["start"] :=
  ⟨rfl, growsBy_add h s _ |>.2.2.1⟩

theorem emit_kinds (h : Host) (type explanation : String) (s : CodeExecutor) (node : Node) :
    kinds (emit h type explanation s node) = kinds s ++ [type] :=
  (growsBy_add h s _).2.2.1

theorem runVisitors_kinds (visit : CodeExecutor → Node → Except JSError CodeExecutor)
    (k : Node → Option String)
    (hvisit : ∀ s s' node, visit s node = .ok s' → kinds s' = kinds s ++ (k node).toList)
    (fault : Option JSError) (nodes : List Node) (s : CodeExecutor) :
    ∃ n, n ≤ nodes.length ∧
      kinds (runVisitors visit fault nodes s).1 = kinds s ++ (nodes.take n).filterMap k ∧
      ((runVisitors visit fault nodes s).2 = .ok () → n = nodes.length) := by
  induction nodes generalizing s with
  | nil =>
    refine ⟨0, Nat.le_refl _, ?_, fun _ => rfl⟩
    unfold runVisitors
    cases fault <;> simp
  | cons node rest ih =>
    unfold runVisitors
    cases hv : visit s node with
    | error e =>
      refine ⟨0, Nat.zero_le _, by simp, ?_⟩
      intro hok
      cases hok
    | ok s' =>
      obtain ⟨n, hn, hk, hall⟩ := ih s'
      refine ⟨n + 1, by simpa using hn, ?_, ?_⟩
      · dsimp only
        rw [hk, hvisit s s' node hv, List.take_succ_cons, List.filterMap_cons]
        cases k node <;> simp
      · intro hok
        simp only [List.length_cons, Nat.add_right_cancel_iff]
        exact hall hok

theorem sortVisitor_kinds (h : Host) (ast : Ast) (s s' : CodeExecutor) (node : Node)
    (hv : sortVisitor h s node = .ok s') :
    kinds s' = kinds s ++ (interestKind h ast "sort" node).toList := by
  have hk : interestKind h ast "sort" node =
      (if node.type = "ForStatement" then some "loop_start"
        else if node.type = "IfStatement" then some "comparison" else none) := rfl
  rw [hk]
  unfold sortVisitor at hv
  split at hv <;> cases hv <;> simp_all [emit_kinds]

theorem searchVisitor_kinds (h : Host) (ast : Ast) (s s' : CodeExecutor) (node : Node)
    (hv : searchVisitor h s node = .ok s') :
    kinds s' = kinds s ++ (interestKind h ast "search" node).toList := by
  have hk : interestKind h ast "search" node =
      (if node.type = "WhileStatement" then some "search_loop"
        else if node.type = "IfStatement" then some "found_check" else none) := rfl
  rw [hk]
  unfold searchVisitor at hv
  split at hv <;> cases hv <;> simp_all [emit_kinds]

theorem graphVisitor_kinds (h : Host) (ast : Ast) (s s' : CodeExecutor) (node : Node)
    (hv : graphVisitor h s node = .ok s') :
    kinds s' = kinds s ++ (interestKind h ast "graph" node).toList := by
  have hk : interestKind h ast "graph" node =
      (if node.type = "FunctionDeclaration" ∧
          (node.idName.map (includes · "visit")) = some true then some "graph_visit"
        else none) := rfl
  rw [hk]
  unfold graphVisitor at hv
  split at hv
  · split at hv
    · split at hv <;> cases hv <;> simp_all [emit_kinds]
    · cases hv
      simp_all
  · cases hv
    simp_all

theorem recursiveVisitor_kinds (h : Host) (ast : Ast) (s s' : CodeExecutor) (node : Node)
    (hv : recursiveVisitor h ast s node = .ok s') :
    kinds s' = kinds s ++ (interestKind h ast "recursion" node).toList := by
  have hk : interestKind h ast "recursion" node =
      (if node.type = "CallExpression" ∧ node.calleeType = "Identifier" then
        match isRecursiveCall h node.calleeName ast with
        | .ok true => some "recursive_call"
        | _ => none
      else none) := rfl
  rw [hk]
  unfold recursiveVisitor at hv
  split at hv
  · split at hv
    · split at hv <;> cases hv <;> simp_all [emit_kinds]
    · cases hv
      simp_all
  · cases hv
    simp_all

theorem genericVisitor_kinds (h : Host) (ast : Ast) (algorithmType : String)
    (hsort : algorithmType ≠ "sort") (hsearch : algorithmType ≠ "search")
    (hgraph : algorithmType ≠ "graph") (hdp : algorithmType ≠ "dp")
    (hrec : algorithmType ≠ "recursion") (s s' : CodeExecutor) (node : Node)
    (hv : genericVisitor h s node = .ok s') :
    kinds s' = kinds s ++ (interestKind h ast algorithmType node).toList := by
  have hk : interestKind h ast algorithmType node =
      (if node.type = "FunctionDeclaration" then some "function_declaration"
        else if node.type = "VariableDeclaration" then some "variable_declaration"
        else if node.type = "ForStatement" then some "for_loop"
        else if node.type = "WhileStatement" then some "while_loop"
        else if node.type = "IfStatement" then some "if_statement"
        else if node.type = "ReturnStatement" then some "return"
        else none) := by
    unfold interestKind
    split <;> first | rfl | contradiction
  rw [hk]
  unfold genericVisitor at hv
  split at hv
  · split at hv <;> cases hv
    simp_all [emit_kinds]
  all_goals cases hv
  all_goals simp_all [emit_kinds]

/-- C21, as the code has it: for every tree and hint, the interest-point steps
that `analyzeAST` appends after the `start` step are those of the nodes the
walker reports, in the order in which it reports them and one at most for each
reported node; when the analysis raises they stop at the node where it raised,
and when it completes every reported node has been handled. -/
theorem analyzeAST_walker_order (h : Host) (s : CodeExecutor) (ast : Ast)
    (algorithmType : String) :
    ∃ n, n ≤ (reported h ast algorithmType).length ∧
      kinds (analyzeAST h s ast algorithmType).1 =
        kinds s ++ "start" ::
          ((reported h ast algorithmType).take n).filterMap (interestKind h ast algorithmType) ∧
      ((analyzeAST h s ast algorithmType).2 = .ok () →
        n = (reported h ast algorithmType).length) := by
  have hstart : ∀ step : Step, step.type = "start" →
      kinds (addExecutionStep h s step) = kinds s ++ ["start"] := by
    intro step hs
    rw [(growsBy_add h s step).2.2.1, hs]
  have glue : ∀ (s1 : CodeExecutor) (r : Outcome Unit) (nodes : List Node)
      (k : Node → Option String), kinds s1 = kinds s ++ ["start"] →
      (∃ n, n ≤ nodes.length ∧ kinds r.1 = kinds s1 ++ (nodes.take n).filterMap k ∧
        (r.2 = .ok () → n = nodes.length)) →
      ∃ n, n ≤ nodes.length ∧ kinds r.1 = kinds s ++ "start" :: (nodes.take n).filterMap k ∧
        (r.2 = .ok () → n = nodes.length) := by
    intro s1 r nodes k h1 ⟨n, hn, hk, hall⟩
    refine ⟨n, hn, ?_, hall⟩
    rw [hk, h1, List.append_assoc]
    rfl
  by_cases hsort : algorithmType = "sort"
  · subst hsort
    exact glue _ (analyzeSortAlgorithm h _ ast) (h.simpleWithBase ast).visited _ (hstart _ rfl)
      (runVisitors_kinds _ _ (sortVisitor_kinds h ast) _ _ _)
  by_cases hsearch : algorithmType = "search"
  · subst hsearch
    exact glue _ (analyzeSearchAlgorithm h _ ast) (h.simpleWithBase ast).visited _ (hstart _ rfl)
      (runVisitors_kinds _ _ (searchVisitor_kinds h ast) _ _ _)
  by_cases hgraph : algorithmType = "graph"
  · subst hgraph
    exact glue _ (analyzeGraphAlgorithm h _ ast) (h.simpleWithBase ast).visited _ (hstart _ rfl)
      (runVisitors_kinds _ _ (graphVisitor_kinds h ast) _ _ _)
  by_cases hdp : algorithmType = "dp"
  · subst hdp
    refine ⟨0, Nat.le_refl _, ?_, ?_⟩
    · exact hstart _ rfl
    · intro hok
      cases hok
  by_cases hrec : algorithmType = "recursion"
  · subst hrec
    exact glue _ (analyzeRecursiveAlgorithm h _ ast) (h.simpleWithBase ast).visited _
      (hstart _ rfl) (runVisitors_kinds _ _ (recursiveVisitor_kinds h ast) _ _ _)
  · have hana : analyzeAST h s ast algorithmType =
        analyzeGenericAlgorithm h
          (addExecutionStep h s
            { type := "start", explanation := some "Starting execution",
              vars := some s.executionContext }) ast := by
      unfold analyzeAST
      dsimp only
      split <;> first | contradiction | rfl
    have hrep : reported h ast algorithmType = (h.simpleWithBase ast).visited := by
      unfold reported
      rw [if_neg hdp]
    rw [hana, hrep]
    exact glue _ (analyzeGenericAlgorithm h _ ast) (h.simpleWithBase ast).visited _
      (hstart _ rfl)
      (runVisitors_kinds _ _
        (genericVisitor_kinds h ast algorithmType hsort hsearch hgraph hdp hrec) _ _ _)

/-- Counterexample to C21: on the tree of the factorial program, with a
walker that reports children first, the generic analysis emits the step of
the `return` nested in the `if` before the step of the `if`, and the step of
the function declaration that encloses both after them. -/
theorem analyzeAST_nested_first :
    kinds (analyzeAST treeHost {} factorialAst "generic").1 =
        ["start", "return", "if_statement", "return", "function_declaration",
          "variable_declaration"] ∧
      (analyzeAST treeHost {} factorialAst "generic").2 = .ok () :=
  ⟨rfl, rfl⟩

/-! ## Steps of the analysis carry no variables -/

theorem sortVisitor_keepsBare (h : Host) (P : CodeExecutor → Prop)
    (hadd : ∀ s step, BareLiteral step → P s → P (addExecutionStep h s step))
    (s s' : CodeExecutor) (node : Node) (hv : sortVisitor h s node = .ok s') (hs : P s) :
    P s' := by
  unfold sortVisitor at hv
  split at hv <;> cases hv
  · exact hadd s _ (Or.inl rfl) hs
  · exact hadd s _ (Or.inl rfl) hs
  · exact hs

theorem searchVisitor_keepsBare (h : Host) (P : CodeExecutor → Prop)
    (hadd : ∀ s step, BareLiteral step → P s → P (addExecutionStep h s step))
    (s s' : CodeExecutor) (node : Node) (hv : searchVisitor h s node = .ok s') (hs : P s) :
    P s' := by
  unfold searchVisitor at hv
  split at hv <;> cases hv
  · exact hadd s _ (Or.inl rfl) hs
  · exact hadd s _ (Or.inl rfl) hs
  · exact hs

theorem graphVisitor_keepsBare (h : Host) (P : CodeExecutor → Prop)
    (hadd : ∀ s step, BareLiteral step → P s → P (addExecutionStep h s step))
    (s s' : CodeExecutor) (node : Node) (hv : graphVisitor h s node = .ok s') (hs : P s) :
    P s' := by
  unfold graphVisitor at hv
  split at hv
  · split at hv
    · split at hv <;> cases hv
      · exact hadd s _ (Or.inl rfl) hs
      · exact hs
    · cases hv
      exact hs
  · cases hv
    exact hs

theorem recursiveVisitor_keepsBare (h : Host) (ast : Ast) (P : CodeExecutor → Prop)
    (hadd : ∀ s step, BareLiteral step → P s → P (addExecutionStep h s step))
    (s s' : CodeExecutor) (node : Node) (hv : recursiveVisitor h ast s node = .ok s')
    (hs : P s) : P s' := by
  unfold recursiveVisitor at hv
  split at hv
  · split at hv
    · split at hv <;> cases hv
      · exact hadd s _ (Or.inl rfl) hs
      · exact hs
    · cases hv
      exact hs
  · cases hv
    exact hs

theorem genericVisitor_keepsBare (h : Host) (P : CodeExecutor → Prop)
    (hadd : ∀ s step, BareLiteral step → P s → P (addExecutionStep h s step))
    (s s' : CodeExecutor) (node : Node) (hv : genericVisitor h s node = .ok s') (hs : P s) :
    P s' := by
  unfold genericVisitor at hv
  split at hv
  · split at hv <;> cases hv
    exact hadd s _ (Or.inl rfl) hs
  all_goals cases hv
  · exact hadd s _ (Or.inl rfl) hs
  · exact hadd s _ (Or.inl rfl) hs
  · exact hadd s _ (Or.inl rfl) hs
  · exact hadd s _ (Or.inl rfl) hs
  · exact hadd s _ (Or.inl rfl) hs
  · exact hs

theorem runLogs_keepsBare (h : Host) (P : CodeExecutor → Prop)
    (hadd : ∀ s step, BareLiteral step → P s → P (addExecutionStep h s step))
    (logs : List (List String)) (s : CodeExecutor) (hs : P s) : P (runLogs h s logs) := by
  induction logs generalizing s with
  | nil => exact hs
  | cons args rest ih =>
    unfold runLogs
    rw [List.foldl_cons]
    exact ih _ (hadd s _ (Or.inl rfl) hs)

theorem callGenerated_keepsBare (h : Host) (P : CodeExecutor → Prop)
    (hadd : ∀ s step, BareLiteral step → P s → P (addExecutionStep h s step))
    (s : CodeExecutor) (hs : P s) : P (callGenerated h s).1 := by
  obtain ⟨logs, hl⟩ := callGenerated_fst h s
  rw [hl]
  exact runLogs_keepsBare h P hadd logs s hs

theorem executeAST_keepsBare (h : Host) (P : CodeExecutor → Prop)
    (hadd : ∀ s step, BareLiteral step → P s → P (addExecutionStep h s step))
    (s : CodeExecutor) (ast : Ast) (hs : P s) : P (executeAST h s ast).1 := by
  have hc := callGenerated_keepsBare h P hadd s hs
  unfold executeAST
  rcases hcg : callGenerated h s with ⟨s1, (e | e) | v⟩
  · rw [hcg] at hc
    exact hadd s1 _ (Or.inl rfl) hc
  · rw [hcg] at hc
    exact hc
  · rw [hcg] at hc
    exact hadd s1 _ (Or.inr (Or.inr rfl)) hc

theorem analyzeAST_keepsBare (h : Host) (P : CodeExecutor → Prop)
    (hadd : ∀ s step, BareLiteral step → P s → P (addExecutionStep h s step))
    (s : CodeExecutor) (ast : Ast) (algorithmType : String) (hs : P s) :
    P (analyzeAST h s ast algorithmType).1 := by
  have hstart := hadd s
    { type := "start", explanation := some "Starting execution",
      vars := some s.executionContext } (Or.inr (Or.inl rfl)) hs
  unfold analyzeAST
  dsimp only
  split
  · exact runVisitors_keeps P _ (sortVisitor_keepsBare h P hadd) _ _ _ hstart
  · exact runVisitors_keeps P _ (searchVisitor_keepsBare h P hadd) _ _ _ hstart
  · exact runVisitors_keeps P _ (graphVisitor_keepsBare h P hadd) _ _ _ hstart
  · exact hstart
  · exact runVisitors_keeps P _ (recursiveVisitor_keepsBare h _ P hadd) _ _ _ hstart
  · exact runVisitors_keeps P _ (genericVisitor_keepsBare h P hadd) _ _ _ hstart

theorem executeJavaScript_keepsBare (h : Host) (P : CodeExecutor → Prop)
    (hadd : ∀ s step, BareLiteral step → P s → P (addExecutionStep h s step))
    (s : CodeExecutor) (code algorithmType : String) (hs : P s) :
    P (executeJavaScript h s code algorithmType).1 := by
  unfold executeJavaScript
  cases hp : h.parse code with
  | error e => exact hs
  | ok ast =>
    dsimp only
    have ha := analyzeAST_keepsBare h P hadd s ast algorithmType hs
    rcases hx : analyzeAST h s ast algorithmType with ⟨s1, e | u⟩
    · rw [hx] at ha
      exact ha
    · rw [hx] at ha
      dsimp only
      have he := executeAST_keepsBare h P hadd s1 ast ha
      rcases hy : executeAST h s1 ast with ⟨s2, e | v⟩
      · rw [hy] at he
        exact runLogs_keepsBare h P hadd _ s2 he
      · rw [hy] at he
        exact runLogs_keepsBare h P hadd _ s2 he

theorem executeCode_keepsBare (h : Host) (P : CodeExecutor → Prop)
    (hadd : ∀ s step, BareLiteral step → P s → P (addExecutionStep h s step))
    (s : CodeExecutor) (code input algorithmType language : String)
    (hs : P (prepare h s input)) :
    P (executeCode h s code input algorithmType language).1 := by
  have hsim : ∀ name, P (simulated h (prepare h s input) name).1 := fun name =>
    hadd _ _ (Or.inr (Or.inr rfl)) (hadd _ _ (Or.inr (Or.inl rfl)) hs)
  unfold executeCode
  dsimp only
  split
  · exact executeJavaScript_keepsBare h P hadd _ code algorithmType hs
  · exact hsim "Python"
  · exact hsim "Java"
  · exact hsim "C-style"
  · exact executeJavaScript_keepsBare h P hadd _ code algorithmType hs

theorem interestBare_add (h : Host) (s : CodeExecutor) (step : Step) (hstep : BareLiteral step)
    (hs : InterestBare s) : InterestBare (addExecutionStep h s step) := by
  intro st hst hkind
  simp only [addExecutionStep, List.mem_append, List.mem_singleton] at hst
  rcases hst with hold | rfl
  · exact hs st hold hkind
  · rcases hstep with hv | ht | ht
    · exact hv
    · dsimp only at hkind
      rw [ht] at hkind
      exact absurd hkind (by decide)
    · dsimp only at hkind
      rw [ht] at hkind
      exact absurd hkind (by decide)

/-- C22, as the code has it: after every run, every step with one of the
twelve interest-point kinds carries no `variables` field at all; the analysis
emits these steps from the tree alone, before the program is evaluated. -/
theorem executeCode_interest_bare (h : Host) (self : CodeExecutor)
    (code input algorithmType language : String) (st : ExecutionStep)
    (hmem : st ∈ (executeCode h self code input algorithmType language).1.executionSteps)
    (hkind : st.type ∈ interestKinds) :
    st.vars = none :=
  executeCode_keepsBare h InterestBare (interestBare_add h) self code input algorithmType
    language (fun st hst => by simp [prepare] at hst) st hmem hkind

/-- Witness of C22 as amended: the `comparison` step of an example run. -/
theorem executeCode_interest_bare_witness :
    ((executeCode demoHost {} "for(;;) if (a) b" "x" "sort" "javascript").1.executionSteps.get
        ⟨1, by decide⟩).type = "comparison" ∧
      ((executeCode demoHost {} "for(;;) if (a) b" "x" "sort" "javascript").1.executionSteps.get
        ⟨1, by decide⟩).vars = none :=
  ⟨rfl,
    executeCode_interest_bare demoHost {} "for(;;) if (a) b" "x" "sort" "javascript"
      ((executeCode demoHost {} "for(;;) if (a) b" "x" "sort" "javascript").1.executionSteps.get
        ⟨1, by decide⟩)
      (List.get_mem _ _ _) (by decide)⟩

/-- Counterexample to C22: in an example run the `comparison` and `loop_start`
steps have no variables, while the environment of the run binds `input`. -/
theorem executeCode_interest_no_snapshot :
    (executeCode demoHost {} "for(;;) if (a) b" "x" "sort" "javascript").1.executionSteps.map
        (fun st => (st.type, st.vars.isSome)) =
        [("start", true), ("comparison", false), ("loop_start", false), ("log", false),
          ("end", true)] ∧
      ((executeCode demoHost {} "for(;;) if (a) b" "x" "sort"
        "javascript").1.executionContext.lookup "input").isSome = true :=
  ⟨rfl, rfl⟩

/-! ## The result of a run -/

/-- C23, at the failing input: the program `const result = input.indexOf(5);`
on the input `[5, 7]` binds `result` to 0, and the `end` step of the run
carries the input array as its result, 0 being falsy in
`return result || context.input`. -/
theorem executeCode_falsy_result :
    (indexZeroHost.callFunction (generateCodeFromAST "const result = input.indexOf(5);")
        (.arr [.num (.fin 5), .num (.fin 7)])).completion = .ok (some (.num (.fin 0))) ∧
      (executeCode indexZeroHost {} "const result = input.indexOf(5);" "[5, 7]" "generic"
        "javascript").1.executionSteps.map (·.type) = ["start", "variable_declaration", "end"] ∧
      (executeCode indexZeroHost {} "const result = input.indexOf(5);" "[5, 7]" "generic"
        "javascript").1.executionSteps.getLast?.bind (·.result) =
        some (.arr [.num (.fin 5), .num (.fin 7)]) :=
  ⟨rfl, rfl, rfl⟩

theorem prepare_input (h : Host) (s : CodeExecutor) (input : String) :
    (prepare h s input).executionContext.get "input" = parseInput h input := by
  simp [prepare, Vars.get, List.lookup]

theorem analyzeAST_input (h : Host) (s : CodeExecutor) (input : String) (ast : Ast)
    (algorithmType : String) :
    (analyzeAST h (prepare h s input) ast algorithmType).1.executionContext.get "input" =
      parseInput h input := by
  obtain ⟨mids, _, hby⟩ := analyzeAST_shape h (prepare h s input) ast algorithmType
  rw [hby.1]
  exact prepare_input h s input

/-- C24, as the code has it: the engine keeps no step budget and no timer.  A
run on the JavaScript path whose program is parsed, analysed and read comes to
an end exactly when the call of the compiled program does, so a program that
loops for ever makes the run hang and nothing is returned; and no trace that
any run returns holds a step of kind `error`. -/
theorem executeCode_no_budget (h : Host) (self : CodeExecutor)
    (code input algorithmType language : String) (ast : Ast) (original : String)
    (hlang : language ≠ "python" ∧ language ≠ "java" ∧ language ≠ "c")
    (hparse : h.parse code = .ok ast)
    (hana : (analyzeAST h (prepare h self input) ast algorithmType).2 = .ok ())
    (horiginal : h.getOriginalCode = .ok original) :
    settles h self code input algorithmType language =
        h.halts (generateCodeFromAST original) (parseInput h input) ∧
      ∀ trace, (executeCode h self code input algorithmType language).2 = .ok trace →
        ∀ st ∈ trace, st.type ≠ "error" := by
  constructor
  · have hin := analyzeAST_input h self input ast algorithmType
    unfold settles
    dsimp only
    split
    · exact absurd rfl hlang.1
    · exact absurd rfl hlang.2.1
    · exact absurd rfl hlang.2.2
    · rw [hparse]
      dsimp only
      rcases ha : analyzeAST h (prepare h self input) ast algorithmType with ⟨s1, e1 | u⟩
      · rw [ha] at hana; cases hana
      · rw [ha] at hin
        dsimp only at hin ⊢
        rw [horiginal]
        dsimp only
        rw [hin]
  · intro trace hret st hst
    obtain ⟨mids, lates, hm, hl, hk⟩ :=
      returned_kinds h self code input algorithmType language trace hret
    have hmem : st.type ∈ trace.map (·.type) := List.mem_map_of_mem _ hst
    rw [hk] at hmem
    simp only [List.mem_append, List.mem_cons] at hmem
    rcases hmem with (hs | hmid) | hend | hlate
    · rw [hs]; decide
    · exact (hm _ hmid).2
    · rw [hend]; decide
    · rw [hl _ hlate]; decide

/-- Witness of C24 as amended: the run of the program `while (true) {}`
comes to an end only if the call of the compiled program does. -/
theorem executeCode_no_budget_witness :
    settles loopHost {} loopSource "[]" "generic" "javascript" =
      loopHost.halts (generateCodeFromAST loopSource) (parseInput loopHost "[]") :=
  (executeCode_no_budget loopHost {} loopSource "[]" "generic" "javascript"
    (.node { type := "Program" } [.node { type := "WhileStatement" } []]) loopSource
    ⟨by decide, by decide, by decide⟩ rfl rfl rfl).1

/-- Counterexample to C24: the call of the program `while (true) {}` never
comes back, and the run never comes to an end: it returns no trace, with or
without a final step of kind `error`.  The steps recorded by then are the
`start` step and the step of the loop the analysis found. -/
theorem executeCode_loop_never_settles :
    loopHost.getOriginalCode = .ok loopSource ∧
      loopHost.halts (generateCodeFromAST loopSource) (parseInput loopHost "[]") = false ∧
      settles loopHost {} loopSource "[]" "generic" "javascript" = false ∧
      (analyzeAST loopHost (prepare loopHost {} "[]")
        (.node { type := "Program" } [.node { type := "WhileStatement" } []])
        "generic").1.executionSteps.map (·.type) = ["start", "while_loop"] :=
  ⟨rfl, rfl, rfl, rfl⟩

/-! ## The playback -/

theorem playbackStep_bounds (self : AlgorithmVisualizer) (event : PlaybackEvent)
    (hlow : 0 ≤ self.currentStep)
    (hhigh : self.currentStep ≤ (self.executionSteps.length : Int) - 1) :
    (playbackStep self event).executionSteps = self.executionSteps ∧
      0 ≤ (playbackStep self event).currentStep ∧
      (playbackStep self event).currentStep ≤ (self.executionSteps.length : Int) - 1 := by
  cases event with
  | visualizeStep stepIndex =>
    simp only [playbackStep]
    unfold visualizeStep
    split_ifs <;> refine ⟨rfl, ?_, ?_⟩ <;> (try dsimp only) <;> omega
  | stepExecution =>
    simp only [playbackStep]
    unfold stepExecution advance visualizeStep pauseExecution
    split_ifs <;> refine ⟨rfl, ?_, ?_⟩ <;> (try dsimp only) <;> omega
  | autoPlayTick =>
    simp only [playbackStep]
    unfold autoPlayTick advance visualizeStep pauseExecution
    split_ifs <;> refine ⟨rfl, ?_, ?_⟩ <;> (try dsimp only) <;> omega
  | resetVisualization =>
    simp only [playbackStep]
    unfold resetVisualization
    refine ⟨rfl, ?_, ?_⟩ <;> (try dsimp only) <;> omega
  | togglePause autoPlay handle =>
    simp only [playbackStep]
    unfold togglePause pauseExecution resumeExecution resetVisualization startAutoPlay
    split_ifs <;> refine ⟨rfl, ?_, ?_⟩ <;> (try dsimp only) <;> omega

theorem playback_bounds (events : List PlaybackEvent) (self : AlgorithmVisualizer)
    (hlow : 0 ≤ self.currentStep)
    (hhigh : self.currentStep ≤ (self.executionSteps.length : Int) - 1) :
    (playback self events).executionSteps = self.executionSteps ∧
      0 ≤ (playback self events).currentStep ∧
      (playback self events).currentStep ≤ (self.executionSteps.length : Int) - 1 := by
  induction events generalizing self with
  | nil => exact ⟨rfl, hlow, hhigh⟩
  | cons event rest ih =>
    obtain ⟨hsteps, hl, hh⟩ := playbackStep_bounds self event hlow hhigh
    have hrest := ih (playbackStep self event) hl (by rw [hsteps]; exact hh)
    rw [hsteps] at hrest
    exact hrest

/-- C28: once a run has produced `n >= 1` steps, every sequence of
`visualizeStep` with any index, `stepExecution`, timer firings,
`resetVisualization` and `togglePause` leaves the steps as they are and keeps
`0 <= currentStep <= n - 1`; `visualizeStep` with an index outside of
`[0, n - 1]` changes nothing, and `stepExecution` at the last step leaves
`currentStep` as it is and the playback paused. -/
theorem playback_currentStep_bounds (steps : List ExecutionStep) (autoPlay : Bool) (handle : Nat)
    (events : List PlaybackEvent) (hsteps : 1 ≤ steps.length) :
    ((playback (afterRun steps autoPlay handle) events).executionSteps = steps ∧
        0 ≤ (playback (afterRun steps autoPlay handle) events).currentStep ∧
        (playback (afterRun steps autoPlay handle) events).currentStep ≤
          (steps.length : Int) - 1) ∧
      (∀ stepIndex : Int, stepIndex < 0 ∨ (steps.length : Int) - 1 < stepIndex →
        visualizeStep (playback (afterRun steps autoPlay handle) events) stepIndex =
          playback (afterRun steps autoPlay handle) events) ∧
      ((playback (afterRun steps autoPlay handle) events).currentStep = (steps.length : Int) - 1 →
        (stepExecution (playback (afterRun steps autoPlay handle) events)).currentStep =
            (steps.length : Int) - 1 ∧
          (stepExecution (playback (afterRun steps autoPlay handle) events)).isRunning =
            false) := by
  have hrun : (afterRun steps autoPlay handle).executionSteps = steps ∧
      (afterRun steps autoPlay handle).currentStep = 0 := by
    simp only [afterRun, visualizeStep, startAutoPlay]
    split_ifs <;> exact ⟨rfl, rfl⟩
  have hinv := playback_bounds events (afterRun steps autoPlay handle)
    (by rw [hrun.2]) (by rw [hrun.1, hrun.2]; omega)
  rw [hrun.1] at hinv
  refine ⟨hinv, ?_, ?_⟩
  · intro stepIndex hout
    unfold visualizeStep
    rw [hinv.1, if_pos (by omega)]
  · intro hlast
    unfold stepExecution
    split_ifs with hguard
    · refine ⟨hlast, ?_⟩
      rw [hinv.1] at hguard
      simp only [Bool.or_eq_true, Bool.not_eq_true', decide_eq_true_eq] at hguard
      rcases hguard with hr | hz
      · exact hr
      · omega
    · unfold advance
      rw [hinv.1, if_neg (by omega)]
      exact ⟨hlast, rfl⟩

/-- Witness of C28: the five steps of an example run, played with the timer
on, stepped, sent to the index 9 and stepped to the end. -/
theorem playback_currentStep_bounds_witness :
    (playback
        (afterRun (executeCode demoHost {} "for(;;) if (a) b" "x" "sort"
          "javascript").1.executionSteps true 7)
        [.stepExecution, .autoPlayTick, .visualizeStep 9, .autoPlayTick, .autoPlayTick,
          .autoPlayTick, .stepExecution]).currentStep = 4 ∧
      (0 : Int) ≤ 4 ∧ (4 : Int) ≤ ((5 : Nat) : Int) - 1 := by
  have hw := (playback_currentStep_bounds
    (executeCode demoHost {} "for(;;) if (a) b" "x" "sort" "javascript").1.executionSteps true 7
    [.stepExecution, .autoPlayTick, .visualizeStep 9, .autoPlayTick, .autoPlayTick,
      .autoPlayTick, .stepExecution] (by decide)).1
  have hcur : (playback
      (afterRun (executeCode demoHost {} "for(;;) if (a) b" "x" "sort"
        "javascript").1.executionSteps true 7)
      [.stepExecution, .autoPlayTick, .visualizeStep 9, .autoPlayTick, .autoPlayTick,
        .autoPlayTick, .stepExecution]).currentStep = 4 := by decide
  rw [hcur] at hw
  exact ⟨hcur, hw.2.1, hw.2.2⟩

/-! ## The binary search example -/

theorem num_le_lt_ne (a b t : Num) (hab : Num.le a b = true) (hbt : Num.lt b t = true) :
    Num.strictEq a t = false := by
  cases a <;> cases b <;> cases t <;>
    simp_all [Num.le, Num.lt, Num.strictEq]
  intro hEq
  rcases hab with hlt | hEq'
  · exact absurd hbt (by rw [← hEq]; exact not_lt.2 (le_of_lt hlt))
  · exact absurd hbt (by rw [← hEq, hEq']; exact lt_irrefl _)

theorem num_lt_ne (b t : Num) (hbt : Num.lt b t = true) : Num.strictEq b t = false := by
  cases b <;> cases t <;> simp_all [Num.lt, Num.strictEq]
  exact ne_of_lt hbt

theorem num_ge_gt_ne (b c t : Num) (hne : Num.strictEq b t = false) (hlt : Num.lt b t = false)
    (hbc : Num.le b c = true) : Num.strictEq c t = false := by
  cases b <;> cases c <;> cases t <;>
    simp_all [Num.le, Num.lt, Num.strictEq]
  intro hEq
  have hgt := lt_of_le_of_ne hlt (Ne.symm hne)
  rcases hbc with h1 | h1
  · exact absurd (hEq ▸ h1) (not_lt.2 (le_of_lt hgt))
  · exact absurd (h1 ▸ hEq ▸ hgt) (lt_irrefl _)

theorem binarySearchLoop_spec (arr : List Num) (target : Num)
    (hsorted : arr.Pairwise (fun a b => Num.le a b = true)) :
    ∀ (m : Nat) (left right : Int), (right + 1 - left).toNat = m → 0 ≤ left →
      right < (arr.length : Int) →
      (∀ (i : Nat) (x : Num), arr[i]? = some x → Num.strictEq x target = true →
        left ≤ (i : Int) ∧ (i : Int) ≤ right) →
      (binarySearchLoop arr target left right = -1 ∧
          ∀ x ∈ arr, Num.strictEq x target = false) ∨
        ∃ x, elemAt arr (binarySearchLoop arr target left right) = some x ∧
          Num.strictEq x target = true := by
  intro m
  induction m using Nat.strong_induction_on with
  | _ m ih =>
    intro left right hm hleft hright hinv
    rw [binarySearchLoop]
    by_cases hlr : left ≤ right
    · rw [if_pos hlr]
      have hmid1 : left ≤ (left + right) / 2 := by omega
      have hmid2 : (left + right) / 2 ≤ right := by omega
      have hnat : ((left + right) / 2).toNat < arr.length := by omega
      have helem : elemAt arr ((left + right) / 2) = some arr[((left + right) / 2).toNat] := by
        unfold elemAt
        rw [if_neg (by omega), List.getElem?_eq_getElem hnat]
      rw [helem]
      dsimp only
      by_cases heq : Num.strictEq arr[((left + right) / 2).toNat] target = true
      · rw [if_pos heq]
        exact Or.inr ⟨_, helem, heq⟩
      · rw [if_neg heq]
        have heq' : Num.strictEq arr[((left + right) / 2).toNat] target = false := by
          simpa using heq
        by_cases hlt : Num.lt arr[((left + right) / 2).toNat] target = true
        · rw [if_pos hlt]
          refine ih _ (by omega) _ _ rfl (by omega) hright ?_
          intro i x hix hx
          obtain ⟨hi, hxi⟩ := List.getElem?_eq_some.1 hix
          have hbounds := hinv i x hix hx
          refine ⟨?_, hbounds.2⟩
          by_contra hcon
          have hile : i ≤ ((left + right) / 2).toNat := by omega
          rcases Nat.lt_or_eq_of_le hile with hlt' | heq''
          · have hle := List.pairwise_iff_getElem.1 hsorted i _ hi hnat hlt'
            have := num_le_lt_ne _ _ _ hle hlt
            rw [hxi, hx] at this
            cases this
          · have := num_lt_ne _ _ hlt
            subst heq''
            rw [hxi, hx] at this
            cases this
        · rw [if_neg hlt]
          have hlt' : Num.lt arr[((left + right) / 2).toNat] target = false := by
            simpa using hlt
          refine ih _ (by omega) _ _ rfl hleft (by omega) ?_
          intro i x hix hx
          obtain ⟨hi, hxi⟩ := List.getElem?_eq_some.1 hix
          have hbounds := hinv i x hix hx
          refine ⟨hbounds.1, ?_⟩
          by_contra hcon
          have hige : ((left + right) / 2).toNat ≤ i := by omega
          rcases Nat.lt_or_eq_of_le hige with hgt | heq''
          · have hle := List.pairwise_iff_getElem.1 hsorted _ i hnat hi hgt
            have := num_ge_gt_ne _ _ _ heq' hlt' hle
            rw [hxi, hx] at this
            cases this
          · subst heq''
            rw [hxi, hx] at heq'
            cases heq'
    · rw [if_neg hlr]
      refine Or.inl ⟨rfl, ?_⟩
      intro x hx
      obtain ⟨i, hix⟩ := List.getElem?_of_mem hx
      by_contra hcon
      have hb := hinv i x hix (by simpa using hcon)
      omega

/-- C26: for every array of numbers sorted in ascending order and every
target, `binarySearch` returns (the loop ends): it returns an index at which
the array holds the target when the target occurs in the array, and -1 when it
does not. -/
theorem binarySearch_correct (arr : List Num) (target : Num)
    (hsorted : arr.Pairwise (fun a b => Num.le a b = true)) :
    ((∃ x ∈ arr, Num.strictEq x target = true) →
        ∃ x, elemAt arr (binarySearch arr target) = some x ∧ Num.strictEq x target = true) ∧
      ((¬ ∃ x ∈ arr, Num.strictEq x target = true) → binarySearch arr target = -1) := by
  have hspec := binarySearchLoop_spec arr target hsorted _ 0 ((arr.length : Int) - 1) rfl
    (Int.le_refl 0) (by omega)
    (by
      intro i x hix _
      obtain ⟨hi, _⟩ := List.getElem?_eq_some.1 hix
      omega)
  constructor
  · rintro ⟨x, hx, hxt⟩
    rcases hspec with ⟨_, hnone⟩ | hfound
    · rw [hnone x hx] at hxt
      cases hxt
    · exact hfound
  · intro hno
    rcases hspec with ⟨hminus, _⟩ | ⟨x, hx, hxt⟩
    · exact hminus
    · exfalso
      apply hno
      refine ⟨x, ?_, hxt⟩
      unfold elemAt at hx
      split_ifs at hx
      exact List.mem_iff_getElem?.2 ⟨_, hx⟩

/-- Witness of C26: the sorted array `[1, 2, 5, 5, 6, 9]` and the target 5,
found at index 2. -/
theorem binarySearch_correct_witness :
    binarySearch [.fin 1, .fin 2, .fin 5, .fin 5, .fin 6, .fin 9] (.fin 5) = 2 ∧
      ((∃ x ∈ ([.fin 1, .fin 2, .fin 5, .fin 5, .fin 6, .fin 9] : List Num),
          Num.strictEq x (.fin 5) = true) →
        ∃ x, elemAt [.fin 1, .fin 2, .fin 5, .fin 5, .fin 6, .fin 9]
            (binarySearch [.fin 1, .fin 2, .fin 5, .fin 5, .fin 6, .fin 9] (.fin 5)) = some x ∧
          Num.strictEq x (.fin 5) = true) :=
  ⟨by unfold binarySearch binarySearchLoop; simp [elemAt, Num.strictEq],
    (binarySearch_correct [.fin 1, .fin 2, .fin 5, .fin 5, .fin 6, .fin 9] (.fin 5)
      (by simp [Num.le, Num.lt, Num.strictEq]; norm_num)).1⟩

/-! ## The bubble sort example -/

theorem swapIfGreater_short (l : List Num) (j : Nat) (hlen : l.length ≤ j + 1) :
    swapIfGreater l j = l := by
  unfold swapIfGreater
  have hnone : l[j + 1]? = none := List.getElem?_eq_none (by omega)
  rw [hnone]
  cases l[j]? <;> rfl

theorem swapIfGreater_zero (a b : Num) (rest : List Num) :
    swapIfGreater (a :: b :: rest) 0 =
      if Num.gt a b then b :: a :: rest else a :: b :: rest := by
  simp [swapIfGreater]

theorem swapIfGreater_succ (x : Num) (l : List Num) (j : Nat) :
    swapIfGreater (x :: l) (j + 1) = x :: swapIfGreater l j := by
  unfold swapIfGreater
  simp only [List.getElem?_cons_succ]
  cases l[j]? with
  | none => rfl
  | some a =>
    cases l[j + 1]? with
    | none => rfl
    | some b =>
      dsimp only
      split_ifs <;> simp [List.set_cons_succ]

theorem foldl_swap_shift (x : Num) (js : List Nat) (l : List Num) :
    (js.map Nat.succ).foldl swapIfGreater (x :: l) = x :: js.foldl swapIfGreater l := by
  induction js generalizing l with
  | nil => rfl
  | cons j rest ih =>
    simp only [List.map_cons, List.foldl_cons]
    rw [show Nat.succ j = j + 1 from rfl, swapIfGreater_succ, ih]

theorem foldl_swap_short (js : List Nat) (l : List Num) (hlen : l.length ≤ 1) :
    js.foldl swapIfGreater l = l := by
  induction js with
  | nil => rfl
  | cons j rest ih =>
    rw [List.foldl_cons, swapIfGreater_short l j (by omega), ih]

theorem inner_eq_pass (m : Nat) (l : List Num) :
    (List.range m).foldl swapIfGreater l = bubblePass m l := by
  induction m generalizing l with
  | zero =>
    cases l with
    | nil => rfl
    | cons a t => cases t <;> rfl
  | succ m ih =>
    match l with
    | [] => rw [foldl_swap_short _ _ (by simp)]; rfl
    | [a] => rw [foldl_swap_short _ _ (by simp)]; rfl
    | a :: b :: rest =>
      rw [List.range_succ_eq_map, List.foldl_cons, swapIfGreater_zero]
      unfold bubblePass
      split_ifs
      · rw [foldl_swap_shift, ih]
      · rw [foldl_swap_shift, ih]

theorem bubblePass_perm (k : Nat) (l : List Num) : (bubblePass k l).Perm l := by
  induction k generalizing l with
  | zero =>
    cases l with
    | nil => exact List.Perm.refl _
    | cons a t => cases t <;> exact List.Perm.refl _
  | succ k ih =>
    match l with
    | [] => exact List.Perm.refl _
    | [a] => exact List.Perm.refl _
    | a :: b :: rest =>
      unfold bubblePass
      split_ifs
      · exact ((ih (a :: rest)).cons b).trans (List.Perm.swap a b rest)
      · exact (ih (b :: rest)).cons a

theorem bubblePass_append (k : Nat) (pre suf : List Num) (hk : k + 1 ≤ pre.length) :
    bubblePass k (pre ++ suf) = bubblePass k pre ++ suf := by
  induction k generalizing pre with
  | zero =>
    match pre, hk with
    | a :: t, _ =>
      cases t with
      | nil => cases suf <;> rfl
      | cons b t' => rfl
  | succ k ih =>
    match pre, hk with
    | a :: b :: rest, hk =>
      simp only [List.cons_append]
      unfold bubblePass
      simp only [List.length_cons] at hk
      split_ifs
      · rw [← List.cons_append, ih (a :: rest) (by simp; omega)]
        rfl
      · rw [← List.cons_append, ih (b :: rest) (by simp; omega)]
        rfl

theorem num_le_refl (a : Num) (ha : a ≠ .nan) : Num.le a a = true := by
  cases a <;> simp_all [Num.le, Num.lt, Num.strictEq]

theorem num_le_of_gt (a b : Num) (hgt : Num.gt a b = true) : Num.le b a = true := by
  unfold Num.gt at hgt
  simp [Num.le, hgt]

theorem num_le_of_not_gt (a b : Num) (ha : a ≠ .nan) (hb : b ≠ .nan)
    (hgt : ¬ Num.gt a b = true) : Num.le a b = true := by
  unfold Num.gt at hgt
  cases a <;> cases b <;> simp_all [Num.le, Num.lt, Num.strictEq]
  exact le_iff_lt_or_eq.1 hgt

theorem num_le_trans (a b c : Num) (hab : Num.le a b = true) (hbc : Num.le b c = true) :
    Num.le a c = true := by
  cases a <;> cases b <;> cases c <;> simp_all [Num.le, Num.lt, Num.strictEq]
  exact le_iff_lt_or_eq.1 (le_trans (le_iff_lt_or_eq.2 hab) (le_iff_lt_or_eq.2 hbc))

theorem bubblePass_max (n : Nat) (l : List Num) (hlen : l.length = n + 1)
    (hnan : ∀ x ∈ l, x ≠ Num.nan) :
    ∃ init m, bubblePass n l = init ++ [m] ∧ ∀ x ∈ l, Num.le x m = true := by
  induction n generalizing l with
  | zero =>
    match l, hlen with
    | [a], _ =>
      refine ⟨[], a, rfl, ?_⟩
      intro x hx
      rw [List.mem_singleton] at hx
      subst hx
      exact num_le_refl x (hnan x (List.mem_singleton.2 rfl))
  | succ n ih =>
    match l, hlen with
    | a :: b :: rest, hlen =>
      have ha : a ≠ Num.nan := hnan a (by simp)
      have hb : b ≠ Num.nan := hnan b (by simp)
      unfold bubblePass
      by_cases hgt : Num.gt a b = true
      · rw [if_pos hgt]
        obtain ⟨init, m, hpass, hmax⟩ := ih (a :: rest) (by simpa using hlen)
          (fun x hx => hnan x (by
            rcases List.mem_cons.1 hx with h | h
            · simp [h]
            · simp [h]))
        refine ⟨b :: init, m, by rw [hpass]; rfl, ?_⟩
        intro x hx
        rcases List.mem_cons.1 hx with h | h
        · exact h ▸ hmax a (List.mem_cons_self _ _)
        · rcases List.mem_cons.1 h with h' | h'
          · exact h' ▸ num_le_trans b a m (num_le_of_gt a b hgt) (hmax a (List.mem_cons_self _ _))
          · exact hmax x (List.mem_cons_of_mem _ h')
      · rw [if_neg hgt]
        obtain ⟨init, m, hpass, hmax⟩ := ih (b :: rest) (by simpa using hlen)
          (fun x hx => hnan x (List.mem_cons_of_mem _ hx))
        refine ⟨a :: init, m, by rw [hpass]; rfl, ?_⟩
        intro x hx
        rcases List.mem_cons.1 hx with h | h
        · exact h ▸ num_le_trans a b m (num_le_of_not_gt a b ha hb hgt)
            (hmax b (List.mem_cons_self _ _))
        · exact hmax x h

theorem bubble_outer (arr : List Num) (hnan : ∀ x ∈ arr, x ≠ Num.nan) :
    ∀ p, p ≤ arr.length - 1 →
      ∃ pre suf,
        (List.range p).foldl (fun current i => bubbleInner arr.length i current) arr =
            pre ++ suf ∧
          suf.length = p ∧ suf.Pairwise (fun a b => Num.le a b = true) ∧
          (∀ x ∈ pre, ∀ y ∈ suf, Num.le x y = true) ∧ (pre ++ suf).Perm arr := by
  intro p
  induction p with
  | zero =>
    intro _
    exact ⟨arr, [], by simp, rfl, List.Pairwise.nil, by simp, by simp⟩
  | succ p ih =>
    intro hp
    obtain ⟨pre, suf, hfold, hsuf, hsorted, hcross, hperm⟩ := ih (by omega)
    have hlen : pre.length + suf.length = arr.length := by
      rw [← List.length_append]
      exact hperm.length_eq
    have hpre : pre.length = (arr.length - p - 1) + 1 := by omega
    have hprenan : ∀ x ∈ pre, x ≠ Num.nan := fun x hx =>
      hnan x (hperm.subset (List.mem_append_left _ hx))
    obtain ⟨init, m, hpass, hmax⟩ := bubblePass_max (arr.length - p - 1) pre hpre hprenan
    have hpassperm : (init ++ [m]).Perm pre := hpass ▸ bubblePass_perm _ pre
    have hm : m ∈ pre := hpassperm.subset (by simp)
    have hinit : ∀ x ∈ init, x ∈ pre := fun x hx =>
      hpassperm.subset (List.mem_append_left _ hx)
    refine ⟨init, m :: suf, ?_, by simp [hsuf], ?_, ?_, ?_⟩
    · rw [List.range_succ, List.foldl_append, hfold]
      simp only [List.foldl_cons, List.foldl_nil]
      unfold bubbleInner
      rw [inner_eq_pass, bubblePass_append _ pre suf (by omega), hpass]
      simp
    · exact List.pairwise_cons.2 ⟨fun y hy => hcross m hm y hy, hsorted⟩
    · intro x hx y hy
      rcases List.mem_cons.1 hy with h | h
      · exact h ▸ hmax x (hinit x hx)
      · exact hcross x (hinit x hx) y h
    · have h1 : (init ++ m :: suf).Perm ((init ++ [m]) ++ suf) := by simp
      exact h1.trans ((hpassperm.append_right suf).trans hperm)

/-- C25, as the code has it: for every array of numbers none of which is
`NaN`, `bubbleSort` returns (its loops are counted) an array that is in
ascending order and is a permutation of its argument. -/
theorem bubbleSort_sorted_perm (arr : List Num) (hnan : ∀ x ∈ arr, x ≠ Num.nan) :
    (bubbleSort arr).Pairwise (fun a b => Num.le a b = true) ∧ (bubbleSort arr).Perm arr := by
  obtain ⟨pre, suf, hfold, hsuf, hsorted, hcross, hperm⟩ :=
    bubble_outer arr hnan (arr.length - 1) (Nat.le_refl _)
  have hlen : pre.length + suf.length = arr.length := by
    rw [← List.length_append]
    exact hperm.length_eq
  unfold bubbleSort
  dsimp only
  rw [hfold]
  refine ⟨?_, hperm⟩
  rw [List.pairwise_append]
  refine ⟨?_, hsorted, hcross⟩
  match pre, hlen with
  | [], _ => exact List.Pairwise.nil
  | [a], _ => exact List.pairwise_singleton _ _
  | a :: b :: rest, hlen =>
    simp only [List.length_cons] at hlen
    omega

/-- Witness of C25 as amended: the array `[5, 2, 9, 1, 5, 6]`, sorted into
`[1, 2, 5, 5, 6, 9]`. -/
theorem bubbleSort_sorted_perm_witness :
    bubbleSort [.fin 5, .fin 2, .fin 9, .fin 1, .fin 5, .fin 6] =
        [.fin 1, .fin 2, .fin 5, .fin 5, .fin 6, .fin 9] ∧
      (bubbleSort [.fin 5, .fin 2, .fin 9, .fin 1, .fin 5, .fin 6]).Pairwise
        (fun a b => Num.le a b = true) ∧
      (bubbleSort [.fin 5, .fin 2, .fin 9, .fin 1, .fin 5, .fin 6]).Perm
        [.fin 5, .fin 2, .fin 9, .fin 1, .fin 5, .fin 6] :=
  ⟨by decide,
    bubbleSort_sorted_perm [.fin 5, .fin 2, .fin 9, .fin 1, .fin 5, .fin 6] (by decide)⟩

/-- Counterexample to C25: on the array `[2, NaN, 1]` no comparison holds, so
`bubbleSort` returns the array as it is, with 2 before 1. -/
theorem bubbleSort_nan_unsorted :
    bubbleSort [.fin 2, .nan, .fin 1] = [.fin 2, .nan, .fin 1] ∧
      Num.gt (.fin 2) (.fin 1) = true ∧
      ¬ (bubbleSort [.fin 2, .nan, .fin 1]).Pairwise (fun a b => Num.le a b = true) := by
  refine ⟨by decide, by decide, ?_⟩
  have hres : bubbleSort [.fin 2, .nan, .fin 1] = [.fin 2, .nan, .fin 1] := by decide
  rw [hres]
  intro hp
  have h21 := (List.pairwise_cons.1 hp).1 (.fin 1) (by simp)
  exact absurd h21 (by decide)

end CodeVisual
